import Mathlib

/-!
Verification of the documentation-indexing and hybrid-retrieval engine.

This file gives a shallow embedding, in Lean, of the core parts of the
repository under study:

* the markdown chunker (`splitIntoSections`, `splitLongSection`);
* the SQLite index store (`storePage`, `searchSections`, `getAllSections`,
  `storeOperations`, `getOperations`, `hasOperations`, `findOperation`,
  `getPageMeta`, `isPageExpired`, `hybridSearchSections`);
* the section-retrieval step of the endpoint-docs handler (`returnSections`);
* the embedded-JSON content extractors of the scraper
  (`extractContentFromNextData`, `extractContentFromSsrDoc`,
  `extractEndpointContent`).

Modelling conventions.  JavaScript strings are Lean `String`s processed as
`List Char` (the JS regex helpers are reimplemented character by character
for the ASCII inputs the code processes); timestamps are `Int`
milliseconds, with the current time passed explicitly where the source
calls `Date.now()`; the SQLite database is an explicit record of row
lists, with AUTOINCREMENT ids modelled by counters; the FTS5 MATCH query
(BM25) and the embedding model are uninterpreted parameters, since no
claim under study depends on their output, only on how results are
combined; floating-point scores are modelled by exact rationals.
-/

set_option maxRecDepth 8000

/-! ## Character and string helpers (JS string primitives, char-level) -/

/-- Maximal whitespace trim from both ends of a character list
(the JS `String.prototype.trim`). -/
def trimChars (cs : List Char) : List Char :=
  ((cs.dropWhile Char.isWhitespace).reverse.dropWhile Char.isWhitespace).reverse

/-- JS `s.trim()`. -/
def strTrim (s : String) : String :=
  String.mk (trimChars s.data)

/-- JS `Array.prototype.join(sep)`. -/
def joinWith (sep : String) : List String → String
  | [] => ""
  | [s] => s
  | s :: rest => s ++ sep ++ joinWith sep rest

/-- JS `s.split("\n")`, accumulator version. -/
def linesOfAux : List Char → List Char → List String
  | [], acc => [String.mk acc.reverse]
  | c :: rest, acc =>
    if c = '\n' then String.mk acc.reverse :: linesOfAux rest []
    else linesOfAux rest (c :: acc)

/-- JS `s.split("\n")`. -/
def linesOf (s : String) : List String :=
  linesOfAux s.data []

/-- JS `s.toLowerCase()` (ASCII range, which is all the code compares). -/
def lowerStr (s : String) : String :=
  String.mk (s.data.map Char.toLower)

/-- JS `s.toUpperCase()` (ASCII range). -/
def upperStr (s : String) : String :=
  String.mk (s.data.map Char.toUpper)

/-- JS `s.slice(0, n)`. -/
def strTake (n : Nat) (s : String) : String :=
  String.mk (s.data.take n)

/-- JS `s.startsWith(pre)`. -/
def strStartsWith (s pre : String) : Bool :=
  pre.data.isPrefixOf s.data

/-- Contiguous-sublist test on character lists (JS `String.prototype.includes`). -/
def subListOf (needle : List Char) : List Char → Bool
  | [] => needle.isEmpty
  | c :: rest => needle.isPrefixOf (c :: rest) || subListOf needle rest

/-- JS `hay.includes(needle)`. -/
def strIncludes (hay needle : String) : Bool :=
  subListOf needle.data hay.data

/-- One step of JS `s.replace(/\s+/g, "-")`: every maximal whitespace run
becomes a single dash.  The flag records whether the previous character was
whitespace (so the run only emits one dash). -/
def collapseWsDash : Bool → List Char → List Char
  | _, [] => []
  | prevWs, c :: rest =>
    if c.isWhitespace then
      if prevWs then collapseWsDash true rest
      else '-' :: collapseWsDash true rest
    else c :: collapseWsDash false rest

/-- JS `s.replace(/\s+/g, "-")`. -/
def wsRunsToDash (s : String) : String :=
  String.mk (collapseWsDash false s.data)

/-! ## Chunker (`splitIntoSections` / `splitLongSection`) -/

/-- `MIN_SECTION_CHARS` of the chunker. -/
def MIN_SECTION_CHARS : Nat := 80

/-- `MAX_SECTION_CHARS` of the chunker. -/
def MAX_SECTION_CHARS : Nat := 2500

/-- `DocSection` of the chunker: one titled chunk of markdown. -/
structure DocSection where
  title : String
  content : String
deriving DecidableEq, Repr

/-- Characters the JS regex `.` (no `s` flag) refuses to match:
line terminators. -/
def isTermChar (c : Char) : Bool :=
  c = '\n' || c = '\r' || c = Char.ofNat 0x2028 || c = Char.ofNat 0x2029

/-- The `\s+(.+)` tail of the heading regex `/^#{2,3}\s+(.+)/`, applied to
the characters after the consumed `#` signs, already composed with the
`.trim()` both call sites apply to the captured group.  `none` means the
regex does not match.  When everything after the whitespace is empty the
regex backtracks into the whitespace run, capturing a whitespace character,
which trims to the empty title. -/
def headingTitleAux (r : List Char) : Option String :=
  let ws := r.takeWhile Char.isWhitespace
  let rest := r.dropWhile Char.isWhitespace
  if ws = [] then none
  else if rest ≠ [] then some (strTrim (String.mk (rest.takeWhile (fun c => !isTermChar c))))
  else if (ws.drop 1).any (fun c => !isTermChar c) then some ""
  else none

/-- The heading matcher `line.match(/^#{2,3}\s+(.+)/)` of `splitIntoSections`
(composed with the `.trim()` of the capture): `##`/`###` followed by
whitespace and a title; `####` and deeper do not match because the regex
requires whitespace right after at most three `#` signs. -/
def matchHeadingTitle (line : String) : Option String :=
  match line.data with
  | c1 :: c2 :: rest =>
    if c1 = '#' && c2 = '#' then
      match rest with
      | c3 :: rest2 => if c3 = '#' then headingTitleAux rest2 else headingTitleAux rest
      | [] => headingTitleAux []
    else none
  | _ => none

/-- `rawSections[rawSections.length - 1].content += "\n\n" + buffered`. -/
def appendToLast : List DocSection → String → List DocSection
  | [], _ => []
  | [sec], buffered => [⟨sec.title, sec.content ++ "\n\n" ++ buffered⟩]
  | sec :: rest, buffered => sec :: appendToLast rest buffered

/-- The heading-splitting loop of `splitIntoSections`, including the final
flush of the last buffer.  Arguments mirror the mutable locals of the
source: remaining lines, `currentTitle`, `currentLines`, `rawSections`. -/
def buildRawSections : List String → String → List String → List DocSection → List DocSection
  | [], currentTitle, currentLines, acc =>
    let lastBuffered := strTrim (joinWith "\n" currentLines)
    if MIN_SECTION_CHARS ≤ lastBuffered.length then acc ++ [⟨currentTitle, lastBuffered⟩]
    else if acc ≠ [] && 0 < lastBuffered.length then appendToLast acc lastBuffered
    else acc
  | line :: rest, currentTitle, currentLines, acc =>
    match matchHeadingTitle line with
    | some t =>
      let buffered := strTrim (joinWith "\n" currentLines)
      let acc2 :=
        if MIN_SECTION_CHARS ≤ buffered.length then acc ++ [⟨currentTitle, buffered⟩]
        else if acc ≠ [] && 0 < buffered.length then appendToLast acc buffered
        else acc
      buildRawSections rest t [] acc2
    | none => buildRawSections rest currentTitle (currentLines ++ [line]) acc

/-- `section.content.split(/\n\n+/)` as a character scanner.  In the
`skip = false` state it accumulates the current piece (reversed in `acc`);
on two consecutive newlines it emits the piece and enters the `skip = true`
state, which consumes the rest of the newline run. -/
def spGo : Bool → List Char → List Char → List (List Char)
  | false, [], acc => [acc.reverse]
  | false, c :: rest, acc =>
    if c = '\n' && rest.head? = some '\n' then acc.reverse :: spGo true rest []
    else spGo false rest (c :: acc)
  | true, [], _ => [[]]
  | true, c :: rest, _ =>
    if c = '\n' then spGo true rest []
    else spGo false rest [c]

/-- JS `s.split(/\n\n+/)`: split at each maximal run of two or more
newlines (runs of blank lines). -/
def splitParas (cs : List Char) : List (List Char) :=
  spGo false cs []

/-- The chunk constructor of `splitLongSection`: part 1 keeps the original
title, later parts get the `(parte N)` suffix. -/
def mkChunk (title : String) (partIndex : Nat) (buffer : List String) : DocSection :=
  ⟨if partIndex = 1 then title else title ++ " (parte " ++ toString partIndex ++ ")",
    joinWith "\n\n" buffer⟩

/-- The greedy paragraph-packing loop of `splitLongSection`:
`partIndex`, `buffer`, then the remaining paragraphs. -/
def packLoop (title : String) : Nat → List String → List String → List DocSection
  | partIndex, buffer, [] =>
    if buffer ≠ [] then [mkChunk title partIndex buffer] else []
  | partIndex, buffer, para :: rest =>
    let prospective := joinWith "\n\n" (buffer ++ [para])
    if MAX_SECTION_CHARS < prospective.length && buffer ≠ [] then
      mkChunk title partIndex buffer :: packLoop title (partIndex + 1) [para] rest
    else packLoop title partIndex (buffer ++ [para]) rest

/-- `splitLongSection`: a section over `MAX_SECTION_CHARS` is re-split at
blank-line paragraph boundaries, greedily packing paragraphs. -/
def splitLongSection (sec : DocSection) : List DocSection :=
  if sec.content.length ≤ MAX_SECTION_CHARS then [sec]
  else packLoop sec.title 1 [] ((splitParas sec.content.data).map (fun cs => String.mk cs))

/-- `splitIntoSections`: split markdown into sections at H2/H3 headings,
merge tiny fragments, then enforce the maximum size. -/
def splitIntoSections (markdown : String) (pageTitle : String := "") : List DocSection :=
  let rawSections := buildRawSections (linesOf markdown) pageTitle [] []
  if rawSections.length = 0 && 0 < (strTrim markdown).length then
    splitLongSection ⟨pageTitle, strTrim markdown⟩
  else rawSections.flatMap splitLongSection

/-- Two consecutive newline characters somewhere in the list: the blank-line
paragraph boundary `splitLongSection` splits at. -/
def hasNN : List Char → Bool
  | [] => false
  | [_] => false
  | c1 :: c2 :: rest => (c1 = '\n' && c2 = '\n') || hasNN (c2 :: rest)

/-- A blank-line boundary (`\n\n`) inside a string: exactly when
`split(/\n\n+/)` could split it further. -/
def hasBlankBoundary (s : String) : Bool :=
  hasNN s.data

/-! ## Index store (SQLite layer `alegraDatabase.ts`)

The database is modelled as an explicit record of row lists.  SQLite
AUTOINCREMENT ids are modelled by the `next*Id` counters; the
`ON DELETE CASCADE` foreign keys declared in `initSchema` are modelled by
`deletePage` removing the dependent rows explicitly, which is exactly what
the schema makes SQLite do. -/

/-- A row of `alegra_pages`. -/
structure PageRow where
  id : Nat
  slug : String
  module : String
  submodule : String
  url : String
  fetched_at : Int
deriving DecidableEq, Repr

/-- A row of `alegra_sections`. -/
structure SectionRow where
  id : Nat
  page_id : Nat
  title : String
  content : String
  position : Nat
deriving DecidableEq, Repr

/-- A row of `alegra_operations`. -/
structure OperationRow where
  id : Nat
  page_id : Nat
  name : String
  url : String
  slug : String
  position : Nat
deriving DecidableEq, Repr

/-- A row of `alegra_sections_vec` (the float32 BLOB is modelled as an
exact rational vector). -/
structure VecRow where
  section_id : Nat
  embedding : List ℚ
deriving DecidableEq

/-- The SQLite database of the index store. -/
structure Db where
  pages : List PageRow
  sections : List SectionRow
  operations : List OperationRow
  vectors : List VecRow
  nextPageId : Nat
  nextSectionId : Nat
  nextOperationId : Nat
deriving DecidableEq

/-- `SELECT * FROM alegra_pages WHERE slug = ?` followed by `.get` (first
row). -/
def findPage (db : Db) (slug : String) : Option PageRow :=
  db.pages.find? (fun p => p.slug == slug)

/-- Well-formedness of the database, as SQLite guarantees it: fresh
AUTOINCREMENT ids are above every stored id, and the (enforced) foreign
keys of `alegra_sections`, `alegra_operations` and `alegra_sections_vec`
reference existing rows. -/
def Db.WF (db : Db) : Prop :=
  (∀ p ∈ db.pages, p.id < db.nextPageId) ∧
  (∀ s ∈ db.sections, s.id < db.nextSectionId) ∧
  (∀ s ∈ db.sections, ∃ p ∈ db.pages, s.page_id = p.id) ∧
  (∀ o ∈ db.operations, ∃ p ∈ db.pages, o.page_id = p.id) ∧
  (∀ v ∈ db.vectors, ∃ s ∈ db.sections, v.section_id = s.id)

/-- The page ids removed by `DELETE FROM alegra_pages WHERE slug = ?`. -/
def delPageIds (db : Db) (slug : String) : List Nat :=
  (db.pages.filter (fun p => p.slug == slug)).map (fun p => p.id)

/-- The section ids removed by the cascade of that delete. -/
def delSectionIds (db : Db) (slug : String) : List Nat :=
  (db.sections.filter (fun s => decide (s.page_id ∈ delPageIds db slug))).map (fun s => s.id)

/-- `deletePage`: `DELETE FROM alegra_pages WHERE slug = ?`, with the
cascades of `initSchema` (sections, operations, section vectors). -/
def deletePage (db : Db) (slug : String) : Db :=
  { pages := db.pages.filter (fun p => decide (p.slug ≠ slug))
    sections := db.sections.filter (fun s => decide (s.page_id ∉ delPageIds db slug))
    operations := db.operations.filter (fun o => decide (o.page_id ∉ delPageIds db slug))
    vectors := db.vectors.filter (fun v => decide (v.section_id ∉ delSectionIds db slug))
    nextPageId := db.nextPageId
    nextSectionId := db.nextSectionId
    nextOperationId := db.nextOperationId }

/-- The section-insert loop of `storePage`: sequential AUTOINCREMENT ids
from `startId`, positions from `pos`. -/
def mkSectionRows (pageId : Nat) : Nat → Nat → List DocSection → List SectionRow
  | _, _, [] => []
  | startId, pos, sec :: rest =>
    ⟨startId, pageId, sec.title, sec.content, pos⟩ :: mkSectionRows pageId (startId + 1) (pos + 1) rest

/-- `storePage(slug, module, submodule, url, sections)`: delete any existing
page with that slug (cascading), then insert the new page row and its
ordered sections in one transaction.  `now` is the `Date.now()` of the
insert. -/
def storePage (db : Db) (slug moduleName submoduleName url : String)
    (sections : List DocSection) (now : Int) : Db :=
  let db1 := deletePage db slug
  let pageId := db1.nextPageId
  { pages := db1.pages ++ [⟨pageId, slug, moduleName, submoduleName, url, now⟩]
    sections := db1.sections ++ mkSectionRows pageId db1.nextSectionId 0 sections
    operations := db1.operations
    vectors := db1.vectors
    nextPageId := pageId + 1
    nextSectionId := db1.nextSectionId + sections.length
    nextOperationId := db1.nextOperationId }

/-- `ORDER BY position` over section rows (SQLite returns a stable order
for the tie-free position column). -/
def sortByPosition (rows : List SectionRow) : List SectionRow :=
  List.insertionSort (fun a b => a.position ≤ b.position) rows

/-- `getAllSections(slug)`: all sections of the page in position order;
empty when the page row is absent. -/
def getAllSections (db : Db) (slug : String) : List SectionRow :=
  match findPage db slug with
  | none => []
  | some page => sortByPosition (db.sections.filter (fun s => s.page_id == page.id))

/-- JS `\w` of the sanitizer regex: ASCII letters, digits, underscore. -/
def isWordChar (c : Char) : Bool :=
  c.isAlphanum || c = '_'

/-- `query.replace(/[^\w\s]/g, " ").trim()` of `searchSections`. -/
def sanitizeQuery (query : String) : String :=
  strTrim (String.mk (query.data.map (fun c =>
    if isWordChar c || c.isWhitespace then c else ' ')))

/-- The FTS5 `MATCH ... ORDER BY rank LIMIT ?` query, taken as an
uninterpreted parameter: sanitized query, page id, limit, to the
BM25-ordered result rows.  No claim under study depends on the BM25
ranking itself. -/
def FtsOracle : Type :=
  String → Nat → Nat → List SectionRow

/-- `searchSections(slug, query, limit)`: FTS keyword search inside one
page, returning all sections on an empty sanitized query and the first
`limit` sections by position when the FTS query matches nothing. -/
def searchSections (fts : FtsOracle) (db : Db) (slug query : String)
    (limit : Nat := 3) : List SectionRow :=
  match findPage db slug with
  | none => []
  | some page =>
    let safeQuery := sanitizeQuery query
    if safeQuery = "" then getAllSections db slug
    else
      let rows := fts safeQuery page.id limit
      if rows = [] then
        (sortByPosition (db.sections.filter (fun s => s.page_id == page.id))).take limit
      else rows

/-- `getPageMeta(slug)`: the page row, or `null`. -/
def getPageMeta (db : Db) (slug : String) : Option PageRow :=
  findPage db slug

/-- The operation shape discovered by the scraper and passed to
`storeOperations`. -/
structure OperationInput where
  name : String
  url : String
  slug : String
deriving DecidableEq, Repr

/-- The operation-insert loop of `storeOperations`. -/
def mkOperationRows (pageId : Nat) : Nat → Nat → List OperationInput → List OperationRow
  | _, _, [] => []
  | startId, pos, op :: rest =>
    ⟨startId, pageId, op.name, op.url, op.slug, pos⟩ :: mkOperationRows pageId (startId + 1) (pos + 1) rest

/-- `storeOperations(pageSlug, operations)`: early return on an empty list,
otherwise delete the operations of the page and insert the new list in one
transaction. -/
def storeOperations (db : Db) (pageSlug : String) (operations : List OperationInput) : Db :=
  if operations.length = 0 then db
  else
    match findPage db pageSlug with
    | none => db
    | some page =>
      { db with
        operations :=
          db.operations.filter (fun o => decide (o.page_id ≠ page.id)) ++
            mkOperationRows page.id db.nextOperationId 0 operations
        nextOperationId := db.nextOperationId + operations.length }

/-- `ORDER BY position` over operation rows. -/
def sortOpsByPosition (rows : List OperationRow) : List OperationRow :=
  List.insertionSort (fun a b => a.position ≤ b.position) rows

/-- `getOperations(pageSlug)`: all operations of the page in order; empty
when the page row is absent. -/
def getOperations (db : Db) (pageSlug : String) : List OperationRow :=
  match findPage db pageSlug with
  | none => []
  | some page => sortOpsByPosition (db.operations.filter (fun o => o.page_id == page.id))

/-- `hasOperations(pageSlug)`: `COUNT(*) > 0` over the operations of the
page. -/
def hasOperations (db : Db) (pageSlug : String) : Bool :=
  match findPage db pageSlug with
  | none => false
  | some page => decide (0 < (db.operations.filter (fun o => o.page_id == page.id)).length)

/-- `findOperation(pageSlug, query)`: fuzzy matching, in order exact name,
exact slug, substring name, substring slug. -/
def findOperation (db : Db) (pageSlug query : String) : Option OperationRow :=
  let ops := getOperations db pageSlug
  if ops.length = 0 then none
  else
    let q := lowerStr (strTrim query)
    let qSlug := wsRunsToDash q
    (ops.find? (fun o => lowerStr o.name == q)) <|>
    (ops.find? (fun o => o.slug == qSlug)) <|>
    (ops.find? (fun o => strIncludes (lowerStr o.name) q)) <|>
    (ops.find? (fun o => strIncludes o.slug qSlug))

/-- `TTL_5_DAYS_MS = 5 * 24 * 60 * 60 * 1000`. -/
def TTL_5_DAYS_MS : Int := 5 * 24 * 60 * 60 * 1000

/-- `isPageExpired(slug)`: true when the page row is absent or
`Date.now() - fetched_at > TTL_5_DAYS_MS`.  `now` models `Date.now()`. -/
def isPageExpired (db : Db) (slug : String) (now : Int) : Bool :=
  match findPage db slug with
  | none => true
  | some row => decide (TTL_5_DAYS_MS < now - row.fetched_at)

/-- The embedding model, taken as an uninterpreted parameter
(text to L2-normalized vector). -/
def EmbedOracle : Type :=
  String → List ℚ

/-- `cosineSimilarity` of the embedder: a plain dot product, because all
stored vectors are L2-normalized. -/
def cosineSimilarity (a b : List ℚ) : ℚ :=
  (List.zipWith (fun x y => x * y) a b).sum

/-- `embedPageSections(slug)`: upsert one vector per section of the page
(`INSERT OR REPLACE`); no-op when the page has no sections. -/
def embedPageSections (embed : EmbedOracle) (db : Db) (slug : String) : Db :=
  let sections := getAllSections db slug
  if sections = [] then db
  else
    let pairs := sections.map (fun s => VecRow.mk s.id (embed (s.title ++ "\n\n" ++ s.content)))
    { db with
      vectors :=
        pairs.foldl (fun vecs pair =>
          if vecs.any (fun v => v.section_id == pair.section_id) then
            vecs.map (fun v => if v.section_id == pair.section_id then pair else v)
          else vecs ++ [pair]) db.vectors }

/-- The vector-availability check of `hybridSearchSections`:
`SELECT COUNT(*) FROM alegra_sections_vec v JOIN alegra_sections s ON
s.id = v.section_id WHERE s.page_id = ?`. -/
def pageVectorCount (db : Db) (pageId : Nat) : Nat :=
  (db.vectors.flatMap (fun v =>
    db.sections.filter (fun s => s.id == v.section_id && s.page_id == pageId))).length

/-- The vector count of the page stored under `slug` (zero when the page
row is absent). -/
def slugVectorCount (db : Db) (slug : String) : Nat :=
  match findPage db slug with
  | none => 0
  | some page => pageVectorCount db page.id

/-- One list contribution to the RRF running score: each occurrence of
`id` at 0-based `rank` adds `1 / (k + rank + 1)`.  This is the per-list
`forEach` of the fusion loop, with `rank` the starting rank. -/
def rrfContribAux (k : ℚ) (id : Nat) : List Nat → Nat → ℚ
  | [], _ => 0
  | a :: rest, rank =>
    (if a = id then 1 / (k + rank + 1) else 0) + rrfContribAux k id rest (rank + 1)

/-- The fused RRF score of a section id over the two candidate lists
(the final content of `scoreMap` at that id). -/
def rrfScore (k : ℚ) (l1 l2 : List Nat) (id : Nat) : ℚ :=
  rrfContribAux k id l1 0 + rrfContribAux k id l2 0

/-- The key set of `scoreMap` in iteration order: JS `Map` preserves
insertion order, so the keys are the first occurrences across
`l1 ++ l2`. -/
def rrfKeys (l1 l2 : List Nat) : List Nat :=
  (l1 ++ l2).foldl (fun acc id => if id ∈ acc then acc else acc ++ [id]) []

/-- `[...scoreMap.entries()].sort((a, b) => b[1] - a[1])`: the key set in
descending fused-score order.  `insertionSort` with this relation computes
what the (ES2019-stable) JS sort computes. -/
def rrfSorted (k : ℚ) (l1 l2 : List Nat) : List Nat :=
  List.insertionSort (fun a b => rrfScore k l1 l2 b ≤ rrfScore k l1 l2 a) (rrfKeys l1 l2)

/-- `.slice(0, limit).map(([id]) => id)`: the fused top ids. -/
def rrfTopIds (k : ℚ) (l1 l2 : List Nat) (limit : Nat) : List Nat :=
  (rrfSorted k l1 l2).take limit

/-- `K_RRF = 60`. -/
def K_RRF : ℚ := 60

/-- `CANDIDATE_K = 20`. -/
def CANDIDATE_K : Nat := 20

/-- `hybridSearchSections(slug, query, limit)`: keyword-only fallback when
the page has no stored vectors, otherwise BM25 and cosine candidates fused
with RRF, winners returned in document-position order. -/
def hybridSearchSections (fts : FtsOracle) (embed : EmbedOracle) (db : Db)
    (slug query : String) (limit : Nat := 3) : List SectionRow :=
  match findPage db slug with
  | none => []
  | some page =>
    if pageVectorCount db page.id = 0 then
      searchSections fts db slug query limit
    else
      let safeQuery := sanitizeQuery query
      let ftsIds : List Nat :=
        if safeQuery ≠ "" then (fts safeQuery page.id CANDIDATE_K).map (fun s => s.id)
        else []
      let queryVec := embed query
      let vecRows :=
        (db.sections.filter (fun s => s.page_id == page.id)).flatMap (fun s =>
          (db.vectors.filter (fun v => v.section_id == s.id)).map (fun v => (s.id, v.embedding)))
      let vecIds :=
        ((List.insertionSort (fun a b : Nat × ℚ => b.2 ≤ a.2)
          (vecRows.map (fun r => (r.1, cosineSimilarity queryVec r.2)))).take CANDIDATE_K).map
          (fun r => r.1)
      let topIds := rrfTopIds K_RRF ftsIds vecIds limit
      if topIds = [] then (getAllSections db slug).take limit
      else sortByPosition (db.sections.filter (fun s => decide (s.id ∈ topIds)))

/-! ## Endpoint-docs handler (section retrieval and the store effect of a
submodule-page fetch) -/

/-- `DEFAULT_SECTION_LIMIT = 4` of the handler. -/
def DEFAULT_SECTION_LIMIT : Nat := 4

/-- `QUERY_SECTION_LIMIT = 3` of the handler. -/
def QUERY_SECTION_LIMIT : Nat := 3

/-- The outcome of the handler, reduced to what the claims are about: an
error message, or a success carrying the section rows handed to
`formatSections` (the surrounding header text is elided). -/
inductive ToolResult where
  | err (msg : String)
  | ok (sections : List SectionRow)
deriving DecidableEq

/-- The sections carried by a result (empty for an error). -/
def ToolResult.sectionRows : ToolResult → List SectionRow
  | .err _ => []
  | .ok sections => sections

/-- The error message of `returnSections` for an empty retrieval. -/
def noContentMsg (submoduleName : String) : String :=
  "No se encontró contenido para \"" ++ submoduleName ++ "\". " ++
    "Intenta con forceRefresh=true para re-indexar la página."

/-- The retrieval step of `returnSections`: a truthy `query` runs keyword
search limited to `QUERY_SECTION_LIMIT`, otherwise the first
`DEFAULT_SECTION_LIMIT` sections by position.  `query = none` models an
absent argument and `some ""` the (falsy) empty string. -/
def retrieveForReturn (fts : FtsOracle) (db : Db) (slug : String)
    (query : Option String) : List SectionRow :=
  match query with
  | some q =>
    if q ≠ "" then searchSections fts db slug q QUERY_SECTION_LIMIT
    else (getAllSections db slug).take DEFAULT_SECTION_LIMIT
  | none => (getAllSections db slug).take DEFAULT_SECTION_LIMIT

/-- `returnSections(slug, pageUrl, query, ...)`: retrieve, and turn an
empty retrieval into the user-facing error recommending a forced
re-index. -/
def returnSections (fts : FtsOracle) (db : Db) (slug : String)
    (query : Option String) (submoduleName : String) : ToolResult :=
  let sections := retrieveForReturn fts db slug query
  if sections.length = 0 then ToolResult.err (noContentMsg submoduleName)
  else ToolResult.ok sections

/-- The store effect of the fetch branch of `handleSubmodulePage`: persist
the page with its chunked sections, then persist the discovered operations
only when the list is non-empty. -/
def submodulePageStoreEffect (db : Db) (slug moduleName submoduleName url : String)
    (sections : List DocSection) (operations : List OperationInput) (now : Int) : Db :=
  let db1 := storePage db slug moduleName submoduleName url sections now
  if 0 < operations.length then storeOperations db1 slug operations else db1

/-! ## Scraper: embedded-JSON content extraction

JSON values are modelled by `Js`.  `parseNextDataJson`, `htmlToReadable`,
`JSON.stringify` and the HTML fallback extractor are uninterpreted
parameters: the claims under study are about the thresholds and the
cascade, which do not depend on their output. -/

/-- A parsed JSON value (JS object fields keep insertion order). -/
inductive Js where
  | null
  | bool (b : Bool)
  | num (n : Int)
  | str (s : String)
  | arr (elems : List Js)
  | obj (fields : List (String × Js))

/-- JS truthiness of a JSON value. -/
def Js.truthy : Js → Bool
  | .null => false
  | .bool b => b
  | .num n => decide (n ≠ 0)
  | .str s => decide (s ≠ "")
  | .arr _ => true
  | .obj _ => true

/-- `typeof v === "object"` for a JSON value (arrays and `null` are
objects in JS; `null` is always filtered by a truthiness test first). -/
def Js.isObjectType : Js → Bool
  | .null => true
  | .arr _ => true
  | .obj _ => true
  | _ => false

/-- JS property read `v[k]`: `none` models `undefined`. -/
def Js.getField : Js → String → Option Js
  | .obj fields, k => (fields.find? (fun f => f.1 == k)).map (fun f => f.2)
  | _, _ => none

/-- Nullish stripping: `x ?? y` takes `y` exactly when `x` is `undefined`
or `null`. -/
def stripNull : Option Js → Option Js
  | some .null => none
  | x => x

/-- `x` is truthy (used for JS `x ? ... : ...` on a property read). -/
def truthyOpt : Option Js → Bool
  | none => false
  | some v => v.truthy

/-- `Object.entries(v)` for the object-typed values the code iterates. -/
def entriesOf : Js → List (String × Js)
  | .obj fields => fields
  | .arr elems => (elems.enum.map (fun p => (toString p.1, p.2)))
  | _ => []

mutual

/-- JS `String(v)` for a JSON value. -/
def jsToString : Js → String
  | .null => "null"
  | .bool b => if b then "true" else "false"
  | .num n => toString n
  | .str s => s
  | .arr l => joinWith "," (jsArrStrings l)
  | .obj _ => "[object Object]"

/-- Element strings of JS `Array.prototype.toString` (`null` renders
empty). -/
def jsArrStrings : List Js → List String
  | [] => []
  | .null :: rest => "" :: jsArrStrings rest
  | v :: rest => jsToString v :: jsArrStrings rest

end

/-- `String(v[k] ?? "")`. -/
def strOfField (v : Js) (k : String) : String :=
  match stripNull (v.getField k) with
  | some w => jsToString w
  | none => ""

/-- `String(v[k1] ?? v[k2] ?? "")`. -/
def strOfField2 (v : Js) (k1 k2 : String) : String :=
  match stripNull (v.getField k1) with
  | some w => jsToString w
  | none =>
    match stripNull (v.getField k2) with
    | some w => jsToString w
    | none => ""

/-- `getNestedValue(obj, keys)`: walk the keys, returning `undefined` as
soon as the current value is falsy or not object-typed. -/
def getNestedValue (v : Js) : List String → Option Js
  | [] => some v
  | k :: ks =>
    if v.truthy && v.isObjectType then
      match v.getField k with
      | some next => getNestedValue next ks
      | none => none
    else none

/-- `/\n{3,}/g → "\n\n"`: collapse each maximal run of three or more
newlines.  The flag is the skip state entered after emitting the
replacement pair. -/
def collapse3NL : Bool → List Char → List Char
  | false, [] => []
  | false, [c] => [c]
  | false, c1 :: c2 :: rest =>
    if c1 = '\n' && c2 = '\n' && rest.head? = some '\n' then
      '\n' :: '\n' :: collapse3NL true rest
    else c1 :: collapse3NL false (c2 :: rest)
  | true, [] => []
  | true, c :: rest =>
    if c = '\n' then collapse3NL true rest
    else c :: collapse3NL false rest

/-- `parts.join("\n").replace(/\n{3,}/g, "\n\n").trim()`: the final text
assembly shared by both embedded-JSON extractors. -/
def assembleParts (parts : List String) : String :=
  strTrim (String.mk (collapse3NL false (joinWith "\n" parts).data))

/-- A parameter line of the OpenAPI-style parameter blocks (shared verbatim
by the swagger block of the `__NEXT_DATA__` extractor and the ssr-doc
extractor): name, `[in]`, `(type)`, required marker, description. -/
def paramLineWithIn (p : Js) : List String :=
  if p.truthy && p.isObjectType then
    let name := strTrim (strOfField p "name")
    let inStr := strTrim (strOfField p "in")
    let required := if truthyOpt (p.getField "required") then " *(requerido)*" else ""
    let desc := strTrim (strOfField p "description")
    let type :=
      match p.getField "schema" with
      | none => ""
      | some schemaObj =>
        if schemaObj.truthy then strTrim (strOfField schemaObj "type") else ""
    if name ≠ "" then
      ["- **" ++ name ++ "**" ++ (if inStr ≠ "" then " [" ++ inStr ++ "]" else "") ++
        (if type ≠ "" then " (" ++ type ++ ")" else "") ++ required ++
        (if desc ≠ "" then ": " ++ desc else "")]
    else []
  else []

/-- The `required` string list of a schema:
`Array.isArray(schema["required"]) ? schema["required"] : []`. -/
def reqListOf (schema : Js) : List Js :=
  match schema.getField "required" with
  | some (.arr l) => l
  | _ => []

/-- `required.includes(key)` for the string `key` (strict equality against
each element). -/
def reqIncludes (req : List Js) (key : String) : Bool :=
  req.any (fun v => match v with | .str s => s == key | _ => false)

/-- A property line of the request-body blocks: key, `(type)`, required
marker, description (`desc` fallback only where the source has it). -/
def propLine (req : List Js) (useDescFallback : Bool) (kv : String × Js) : List String :=
  let key := kv.1
  let v := kv.2
  if v.truthy && v.isObjectType then
    let type := strTrim (strOfField v "type")
    let desc :=
      if useDescFallback then strTrim (strOfField2 v "description" "desc")
      else strTrim (strOfField v "description")
    let isReq := if reqIncludes req key then " *(requerido)*" else ""
    ["- **" ++ key ++ "**" ++ (if type ≠ "" then " (" ++ type ++ ")" else "") ++ isReq ++
      (if desc ≠ "" then ": " ++ desc else "")]
  else []

/-- Whether the ssr-props `document` has a usable `api` member:
the negation of the early-return guard `!api || typeof api !== "object"`. -/
def ssrApiOk (doc : Js) : Bool :=
  match doc.getField "api" with
  | some a => a.truthy && a.isObjectType
  | none => false

/-- The parameter block of the ssr-doc operation (`op["parameters"]`). -/
def ssrParamParts (op : Js) : List String :=
  match op.getField "parameters" with
  | some (.arr l) =>
    if !l.isEmpty then ["## Parámetros", ""] ++ l.flatMap paramLineWithIn ++ [""] else []
  | _ => []

/-- The request-body block of the ssr-doc operation: property lines when a
`properties` object exists, otherwise a (2000-character-capped) JSON dump
of the schema via the `JSON.stringify` parameter `jS`. -/
def ssrBodyParts (jS : Js → String) (op : Js) : List String :=
  match getNestedValue op ["requestBody", "content", "application/json", "schema"] with
  | none => []
  | some rbs =>
    if rbs.truthy && rbs.isObjectType then
      ["## Cuerpo de la solicitud (Body)", ""] ++
        (match rbs.getField "properties" with
         | some props =>
           if props.truthy && props.isObjectType then
             (entriesOf props).flatMap (propLine (reqListOf rbs) false)
           else ["```json", strTake 2000 (jS rbs), "```"]
         | none => ["```json", strTake 2000 (jS rbs), "```"]) ++ [""]
    else []

/-- The responses block of the ssr-doc operation (`op["responses"]`). -/
def ssrResponseParts (op : Js) : List String :=
  match op.getField "responses" with
  | none => []
  | some resps =>
    if resps.truthy && resps.isObjectType then
      ["## Respuestas", ""] ++
        (entriesOf resps).flatMap (fun kv =>
          if kv.2.truthy && kv.2.isObjectType then
            ["- **" ++ kv.1 ++ "**: " ++ strTrim (strOfField kv.2 "description")]
          else []) ++ [""]
    else []

/-- `path.split("{")[0]` of the ssr-doc path matcher. -/
def beforeBrace (s : String) : String :=
  String.mk (s.data.takeWhile (fun c => c ≠ Char.ofNat 0x7b))

/-- The OpenAPI-fragment block of the ssr-doc extractor: pick the entry of
`schema.paths` matching `api.path` (exact, then prefix-containment, then
the first entry), pick the operation by HTTP method (falling back to the
first member), and render its parameters, request body and responses. -/
def ssrSchemaParts (jS : Js → String) (a : Js) (method path : String) : List String :=
  match a.getField "schema" with
  | none => []
  | some schema =>
    if schema.truthy && schema.isObjectType then
      match schema.getField "paths" with
      | none => []
      | some paths =>
        if paths.truthy && paths.isObjectType then
          let httpMethod := lowerStr method
          let pathEntries := entriesOf paths
          let targetEntry :=
            (pathEntries.find? (fun e => e.1 == path)) <|>
            (if path ≠ "" then
               pathEntries.find? (fun e => strIncludes (beforeBrace e.1) (beforeBrace path))
             else none) <|>
            pathEntries.head?
          match targetEntry with
          | none => []
          | some entry =>
            let pathVal := entry.2
            if pathVal.truthy && pathVal.isObjectType then
              let opVal :=
                match stripNull (pathVal.getField httpMethod) with
                | some v => some v
                | none => (entriesOf pathVal).head?.map Prod.snd
              match opVal with
              | none => []
              | some op =>
                if op.truthy && op.isObjectType then
                  ssrParamParts op ++ ssrBodyParts jS op ++ ssrResponseParts op
                else []
            else []
        else []
    else []

/-- The header parts of the ssr-doc extractor: source line and title. -/
def ssrParts1 (doc : Js) (pageUrl : String) : List String :=
  let title := strTrim (strOfField doc "title")
  ["# Documentación: " ++ pageUrl, ""] ++ (if title ≠ "" then ["# " ++ title, ""] else [])

/-- The early return of the ssr-doc extractor (no usable `api` member):
the joined header, kept only above 100 characters. -/
def ssrEarlyResult (doc : Js) (pageUrl : String) : Option String :=
  let early := strTrim (joinWith "\n" (ssrParts1 doc pageUrl))
  if 100 < early.length then some early else none

/-- The main path of the ssr-doc extractor: endpoint line plus the OpenAPI
fragment, the assembled result kept only above 150 characters. -/
def ssrMainResult (jS : Js → String) (doc a : Js) (pageUrl : String) : Option String :=
  let method := upperStr (strOfField a "method")
  let path := strTrim (strOfField2 a "path" "url")
  let parts2 := ssrParts1 doc pageUrl ++
    (if method ≠ "" && path ≠ "" then
      ["## Endpoint", "", "`" ++ method ++ " " ++ path ++ "`", ""] else [])
  let result := assembleParts (parts2 ++ ssrSchemaParts jS a method path)
  if 150 < result.length then some result else none

/-- The `!api || typeof api !== "object"` dispatch of the ssr-doc
extractor, on the read `api` member. -/
def ssrApiDispatch (jS : Js → String) (doc : Js) (pageUrl : String) :
    Option Js → Option String
  | none => ssrEarlyResult doc pageUrl
  | some a =>
    if a.truthy && a.isObjectType then ssrMainResult jS doc a pageUrl
    else ssrEarlyResult doc pageUrl

/-- `extractContentFromSsrDoc(doc, pageUrl)`: the older Hub-format
extractor.  Without a usable `api` member it returns the header early,
guarded by a 100-character threshold; with one, it renders the endpoint
line plus the OpenAPI fragment and guards the assembled result with the
150-character threshold. -/
def extractContentFromSsrDoc (jS : Js → String) (doc : Js) (pageUrl : String) : Option String :=
  ssrApiDispatch jS doc pageUrl (doc.getField "api")

/-- The `params` block of the `__NEXT_DATA__` api spec. -/
def apiParamParts (api : Js) : List String :=
  match api.getField "params" with
  | some (.arr l) =>
    if !l.isEmpty then
      ["## Parámetros", ""] ++
        (l.flatMap (fun p =>
          if p.truthy && p.isObjectType then
            let name := strTrim (strOfField p "name")
            if name = "" then []
            else
              let type :=
                strTrim
                  (match
                    (match p.getField "schema" with
                     | none => none
                     | some .null => none
                     | some sv => stripNull (sv.getField "type")) with
                  | some t => jsToString t
                  | none =>
                    match stripNull (p.getField "type") with
                    | some t => jsToString t
                    | none => "")
              let required := if truthyOpt (p.getField "required") then " *(requerido)*" else ""
              let desc := strTrim (strOfField2 p "desc" "description")
              ["- **" ++ name ++ "**" ++ (if type ≠ "" then " (" ++ type ++ ")" else "") ++
                required ++ (if desc ≠ "" then ": " ++ desc else "")]
          else [])) ++ [""]
    else []
  | _ => []

/-- The request-body block of the `__NEXT_DATA__` api spec
(`a["body"]`, with `rb["schema"] ?? rb`): property lines, or a raw JSON
dump truncated to 60 lines. -/
def apiBodyParts (jS : Js → String) (api : Js) : List String :=
  match api.getField "body" with
  | none => []
  | some rb =>
    if rb.truthy && rb.isObjectType then
      let schema :=
        match stripNull (rb.getField "schema") with
        | some s => s
        | none => rb
      ["## Cuerpo de la solicitud (Body)", ""] ++
        (match schema.getField "properties" with
         | some props =>
           if props.truthy && props.isObjectType then
             (entriesOf props).flatMap (propLine (reqListOf schema) true) ++ [""]
           else
             let raw := jS schema
             let ls := linesOf raw
             ["```json", joinWith "\n" (ls.take 60),
               if 60 < ls.length then "// ... (truncado)" else "", "```", ""]
         | none =>
           let raw := jS schema
           let ls := linesOf raw
           ["```json", joinWith "\n" (ls.take 60),
             if 60 < ls.length then "// ... (truncado)" else "", "```", ""])
    else []

/-- The code-example block of the `__NEXT_DATA__` api spec
(`a["examples"]`, first two entries of `request ?? codes ?? items`). -/
def apiExampleParts (api : Js) : List String :=
  match api.getField "examples" with
  | none => []
  | some ex =>
    if ex.truthy && ex.isObjectType then
      let codes :=
        match stripNull (ex.getField "request") with
        | some v => some v
        | none =>
          match stripNull (ex.getField "codes") with
          | some v => some v
          | none => ex.getField "items"
      match codes with
      | some (.arr l) =>
        (l.take 2).flatMap (fun code =>
          if code.truthy && code.isObjectType then
            let lang := strTrim (strOfField2 code "language" "lang")
            let codeStr := strTrim (strOfField2 code "code" "content")
            if codeStr ≠ "" then ["```" ++ lang, codeStr, "```", ""] else []
          else [])
      | _ => []
    else []

/-- The api-spec block of the `__NEXT_DATA__` extractor: endpoint line,
parameters, request body, examples. -/
def apiParts (jS : Js → String) (d : Js) : List String :=
  match d.getField "api" with
  | none => []
  | some api =>
    if api.truthy && api.isObjectType then
      let method := upperStr (strOfField api "method")
      let url := strTrim (strOfField api "url")
      (if method ≠ "" && url ≠ "" then
        ["## Endpoint", "", "`" ++ method ++ " " ++ url ++ "`", ""] else []) ++
        apiParamParts api ++ apiBodyParts jS api ++ apiExampleParts api
    else []

/-- The swagger/openapi block of the `__NEXT_DATA__` extractor: a second
chance at parameter and request-body blocks, each skipped when the parts
assembled so far already contain one. -/
def swaggerParts (jS : Js → String) (d : Js) (partsSoFar : List String) : List String :=
  let sw :=
    match stripNull (d.getField "swagger") with
    | some v => some v
    | none => d.getField "openapi"
  match sw with
  | none => []
  | some swv =>
    if swv.truthy && swv.isObjectType then
      let addParams :=
        match swv.getField "parameters" with
        | some (.arr l) =>
          if !l.isEmpty && !(partsSoFar.any (fun p => strStartsWith p "## Parámetros")) then
            ["## Parámetros", ""] ++ l.flatMap paramLineWithIn ++ [""]
          else []
        | _ => []
      let parts1 := partsSoFar ++ addParams
      let addBody :=
        match getNestedValue swv ["requestBody", "content", "application/json", "schema"] with
        | none => []
        | some rbs =>
          if rbs.truthy && rbs.isObjectType &&
              !(parts1.any (fun p => strStartsWith p "## Cuerpo de la solicitud")) then
            ["## Cuerpo de la solicitud (Body)", ""] ++
              (match rbs.getField "properties" with
               | some props =>
                 if props.truthy && props.isObjectType then
                   (entriesOf props).flatMap (propLine (reqListOf rbs) false) ++ [""]
                 else ["```json", jS rbs, "```", ""]
               | none => ["```json", jS rbs, "```", ""])
          else []
      addParams ++ addBody
    else []

/-- The document body of the `__NEXT_DATA__` extractor: title, excerpt,
prose body (through the `htmlToReadable` parameter `hR`), api block,
swagger block. -/
def nextDataParts (hR : String → String) (jS : Js → String) (d : Js)
    (pageUrl : String) : List String :=
  let base := ["# Documentación: " ++ pageUrl, ""]
  let title := strTrim (strOfField d "title")
  let p1 := base ++ (if title ≠ "" then ["# " ++ title, ""] else [])
  let excerpt := strTrim (strOfField2 d "excerpt" "description")
  let p2 := p1 ++ (if excerpt ≠ "" then [excerpt, ""] else [])
  let bodyHtml := strTrim (strOfField2 d "body" "html")
  let p3 := p2 ++
    (if bodyHtml ≠ "" && bodyHtml ≠ "undefined" then
      (let bodyText := strTrim (hR bodyHtml)
       if bodyText ≠ "" then [bodyText, ""] else [])
    else [])
  let p4 := p3 ++ apiParts jS d
  p4 ++ swaggerParts jS d p4

/-- The dispatch of the ssr-props branch on the read `document` member. -/
def ssrFromDocField (jS : Js → String) (pageUrl : String) : Option Js → Option String
  | some sd =>
    if sd.truthy && sd.isObjectType then extractContentFromSsrDoc jS sd pageUrl
    else none
  | none => none

/-- The ssr-props branch of `extractContentFromNextData`: the top-level
`document` member, when truthy and object-typed, handled by
`extractContentFromSsrDoc`. -/
def ssrBranchResult (jS : Js → String) (dataJs : Js) (pageUrl : String) : Option String :=
  ssrFromDocField jS pageUrl (dataJs.getField "document")

/-- The document lookup chain of the `__NEXT_DATA__` shape:
`props.pageProps.doc ?? props.pageProps.page ?? props.pageProps.currentDoc`. -/
def nextDataDoc (dataJs : Js) : Option Js :=
  match stripNull (getNestedValue dataJs ["props", "pageProps", "doc"]) with
  | some v => some v
  | none =>
    match stripNull (getNestedValue dataJs ["props", "pageProps", "page"]) with
    | some v => some v
    | none => getNestedValue dataJs ["props", "pageProps", "currentDoc"]

/-- The doc-shape guard of `extractContentFromNextData`, as a dispatch on
the looked-up document. -/
def nextDataFromDoc (hR : String → String) (jS : Js → String) (pageUrl : String) :
    Option Js → Option String
  | none => none
  | some d =>
    if d.truthy && d.isObjectType then
      let result := assembleParts (nextDataParts hR jS d pageUrl)
      if 150 < result.length then some result else none
    else none

/-- The `__NEXT_DATA__` doc-shape branch of `extractContentFromNextData`,
with its 150-character minimum-content guard. -/
def nextDataDocResult (hR : String → String) (jS : Js → String) (dataJs : Js)
    (pageUrl : String) : Option String :=
  nextDataFromDoc hR jS pageUrl (nextDataDoc dataJs)

/-- `extractContentFromNextData(html, pageUrl)`, starting from the parsed
payload of `parseNextDataJson` (`data`; `none` models a missing or
unparsable script tag).  Tries the ssr-props `document` shape first, then
the `props.pageProps.doc / page / currentDoc` shape guarded by the
150-character threshold. -/
def extractContentFromNextData (hR : String → String) (jS : Js → String)
    (data : Option Js) (pageUrl : String) : Option String :=
  match data with
  | none => none
  | some dataJs =>
    if dataJs.truthy then
      match ssrBranchResult jS dataJs pageUrl with
      | some r => some r
      | none => nextDataDocResult hR jS dataJs pageUrl
    else none

/-- `extractEndpointContent(html, pageUrl)`: embedded JSON first, HTML
parsing (the parameter `htmlX`, for `extractContentFromHtml`) as the
fallback.  `parse` is the `parseNextDataJson` parameter. -/
def extractEndpointContent (parse : String → Option Js) (hR : String → String)
    (jS : Js → String) (htmlX : String → String → String)
    (html pageUrl : String) : String :=
  match extractContentFromNextData hR jS (parse html) pageUrl with
  | some r => r
  | none => htmlX html pageUrl

/-! ## Shared concrete instances for witnesses and counterexamples -/

/-- A trivial FTS oracle (matches nothing). -/
def ftsEmpty : FtsOracle := fun _ _ _ => []

/-- A trivial embedding oracle. -/
def embedZero : EmbedOracle := fun _ => []

/-- The empty database (fresh schema). -/
def emptyDb : Db := ⟨[], [], [], [], 1, 1, 1⟩

/-- A stored page `p` with two sections and no vectors. -/
def dbTwoSections : Db :=
  ⟨[⟨1, "p", "M", "S", "u", 0⟩],
   [⟨1, 1, "alpha", "first section text", 0⟩, ⟨2, 1, "beta", "second section text", 1⟩],
   [], [], 2, 3, 1⟩

/-- A stored page `p` with five sections and no vectors. -/
def dbFiveSections : Db :=
  ⟨[⟨1, "p", "M", "S", "u", 0⟩],
   [⟨1, 1, "s0", "c0", 0⟩, ⟨2, 1, "s1", "c1", 1⟩, ⟨3, 1, "s2", "c2", 2⟩,
    ⟨4, 1, "s3", "c3", 3⟩, ⟨5, 1, "s4", "c4", 4⟩],
   [], [], 2, 6, 1⟩

/-- A stored page `p` with three operations. -/
def dbWithOps : Db :=
  ⟨[⟨1, "p", "M", "S", "u", 0⟩],
   [⟨1, 1, "t", "page body", 0⟩],
   [⟨1, 1, "Crear", "u/crear", "crear", 0⟩, ⟨2, 1, "Listar", "u/listar", "listar", 1⟩,
    ⟨3, 1, "Editar", "u/editar", "editar", 2⟩],
   [], 2, 2, 4⟩

/-! ## C9: staleness test -/

/-- C9: `isPageExpired` returns true exactly when no page row exists for
the slug or the current time minus `fetched_at` strictly exceeds the
5-day TTL in milliseconds. -/
theorem isPageExpired_iff (db : Db) (slug : String) (now : Int) :
    isPageExpired db slug now = true ↔
      findPage db slug = none ∨
        ∃ row, findPage db slug = some row ∧ TTL_5_DAYS_MS < now - row.fetched_at := by
  cases h : findPage db slug with
  | none => simp [isPageExpired, h]
  | some row => simp [isPageExpired, h]

/-! ## C10: reads on an absent slug are total and empty -/

/-- C10: every read of the index store on a slug with no stored page row
returns an empty or null result: `getAllSections`, `searchSections` and
`getOperations` the empty list, `getPageMeta` null, `hasOperations` false,
`findOperation` null. -/
theorem absentSlug_reads_empty (fts : FtsOracle) (db : Db) (slug q q2 : String) (limit : Nat)
    (h : findPage db slug = none) :
    getAllSections db slug = [] ∧ searchSections fts db slug q limit = [] ∧
      getOperations db slug = [] ∧ getPageMeta db slug = none ∧
      hasOperations db slug = false ∧ findOperation db slug q2 = none := by
  refine ⟨?_, ?_, ?_, ?_, ?_, ?_⟩ <;>
    simp [getAllSections, searchSections, getOperations, getPageMeta, hasOperations,
      findOperation, h]

/-- Witness for C10 on the empty database. -/
theorem absentSlug_reads_empty_witness :
    getAllSections emptyDb "s" = [] ∧ searchSections ftsEmpty emptyDb "s" "q" 3 = [] ∧
      getOperations emptyDb "s" = [] ∧ getPageMeta emptyDb "s" = none ∧
      hasOperations emptyDb "s" = false ∧ findOperation emptyDb "s" "r" = none :=
  absentSlug_reads_empty ftsEmpty emptyDb "s" "q" "r" 3 (by decide)

/-! ## C4: hybrid search with zero stored vectors -/

/-- C4: on a page slug with zero stored section vectors (including an
absent page row), `hybridSearchSections` returns exactly the result of
`searchSections` for the same slug, query and limit. -/
theorem hybridSearch_zeroVectors_delegates (fts : FtsOracle) (embed : EmbedOracle)
    (db : Db) (slug query : String) (limit : Nat)
    (h : slugVectorCount db slug = 0) :
    hybridSearchSections fts embed db slug query limit =
      searchSections fts db slug query limit := by
  cases hf : findPage db slug with
  | none => simp [hybridSearchSections, searchSections, hf]
  | some page =>
    have hc : pageVectorCount db page.id = 0 := by
      have := h
      rw [slugVectorCount, hf] at this
      exact this
    simp [hybridSearchSections, hf, hc]

/-- Witness for C4: a stored page with sections but no vectors yet. -/
theorem hybridSearch_zeroVectors_delegates_witness :
    hybridSearchSections ftsEmpty embedZero dbTwoSections "p" "factura" 3 =
      searchSections ftsEmpty dbTwoSections "p" "factura" 3 :=
  hybridSearch_zeroVectors_delegates ftsEmpty embedZero dbTwoSections "p" "factura" 3
    (by decide)

/-! ## C1: keyword search with an empty sanitized query -/

/-- C1 counterexample: on a page with two sections and `limit = 1`, a
query sanitizing to the empty string returns both sections, not the first
`limit` sections (which would be one). -/
theorem searchSections_emptyQuery_counterexample :
    (searchSections ftsEmpty dbTwoSections "p" "!!!" 1).length = 2 ∧
      ((getAllSections dbTwoSections "p").take 1).length = 1 := by
  decide

/-- C1 (amended): with a stored page row, a query whose sanitized form is
empty makes `searchSections` return all sections of the page in position
order (the `getAllSections` result, ignoring `limit`); the
first-`limit`-sections fallback applies only when the sanitized query is
nonempty and the FTS query matches zero rows. -/
theorem searchSections_emptyQuery_returnsAll (fts : FtsOracle) (db : Db)
    (slug query : String) (limit : Nat) (page : PageRow)
    (hp : findPage db slug = some page) :
    (sanitizeQuery query = "" →
      searchSections fts db slug query limit = getAllSections db slug) ∧
    (sanitizeQuery query ≠ "" → fts (sanitizeQuery query) page.id limit = [] →
      searchSections fts db slug query limit =
        (sortByPosition (db.sections.filter (fun s => s.page_id == page.id))).take limit) := by
  constructor
  · intro hq
    simp [searchSections, hp, hq]
  · intro hq hf
    simp [searchSections, hp, hq, hf]

/-- Witness for C1 at the counterexample instance. -/
theorem searchSections_emptyQuery_returnsAll_witness :
    searchSections ftsEmpty dbTwoSections "p" "!!!" 1 = getAllSections dbTwoSections "p" :=
  (searchSections_emptyQuery_returnsAll ftsEmpty dbTwoSections "p" "!!!" 1
    ⟨1, "p", "M", "S", "u", 0⟩ (by decide)).1 (by decide)

/-! ## Projection lemmas for the store writes -/

theorem deletePage_pages (db : Db) (slug : String) :
    (deletePage db slug).pages = db.pages.filter (fun p => decide (p.slug ≠ slug)) := rfl

theorem deletePage_sections (db : Db) (slug : String) :
    (deletePage db slug).sections =
      db.sections.filter (fun s => decide (s.page_id ∉ delPageIds db slug)) := rfl

theorem deletePage_operations (db : Db) (slug : String) :
    (deletePage db slug).operations =
      db.operations.filter (fun o => decide (o.page_id ∉ delPageIds db slug)) := rfl

theorem deletePage_vectors (db : Db) (slug : String) :
    (deletePage db slug).vectors =
      db.vectors.filter (fun v => decide (v.section_id ∉ delSectionIds db slug)) := rfl

theorem storePage_pages (db : Db) (slug m sm u : String) (secs : List DocSection) (now : Int) :
    (storePage db slug m sm u secs now).pages =
      (deletePage db slug).pages ++ [⟨db.nextPageId, slug, m, sm, u, now⟩] := rfl

theorem storePage_sections (db : Db) (slug m sm u : String) (secs : List DocSection) (now : Int) :
    (storePage db slug m sm u secs now).sections =
      (deletePage db slug).sections ++ mkSectionRows db.nextPageId db.nextSectionId 0 secs := rfl

theorem storePage_operations (db : Db) (slug m sm u : String) (secs : List DocSection)
    (now : Int) :
    (storePage db slug m sm u secs now).operations = (deletePage db slug).operations := rfl

theorem storePage_vectors (db : Db) (slug m sm u : String) (secs : List DocSection) (now : Int) :
    (storePage db slug m sm u secs now).vectors = (deletePage db slug).vectors := rfl

theorem storePage_nextPageId (db : Db) (slug m sm u : String) (secs : List DocSection)
    (now : Int) :
    (storePage db slug m sm u secs now).nextPageId = db.nextPageId + 1 := rfl

theorem storePage_nextSectionId (db : Db) (slug m sm u : String) (secs : List DocSection)
    (now : Int) :
    (storePage db slug m sm u secs now).nextSectionId = db.nextSectionId + secs.length := rfl

/-! ## Facts about the insert loops and the delete sets -/

theorem mem_mkSectionRows (pid : Nat) :
    ∀ (secs : List DocSection) (sid pos : Nat) (s : SectionRow),
      s ∈ mkSectionRows pid sid pos secs →
        s.page_id = pid ∧ sid ≤ s.id ∧ s.id < sid + secs.length := by
  intro secs
  induction secs with
  | nil => intro sid pos s h; simp [mkSectionRows] at h
  | cons sec rest ih =>
    intro sid pos s h
    rw [mkSectionRows] at h
    rcases List.mem_cons.mp h with h | h
    · subst h; refine ⟨rfl, le_refl _, ?_⟩; simp only [List.length_cons]; omega
    · obtain ⟨h1, h2, h3⟩ := ih (sid + 1) (pos + 1) s h
      refine ⟨h1, by omega, ?_⟩; simp only [List.length_cons]; omega

theorem length_mkSectionRows (pid : Nat) :
    ∀ (secs : List DocSection) (sid pos : Nat),
      (mkSectionRows pid sid pos secs).length = secs.length := by
  intro secs
  induction secs with
  | nil => intro sid pos; rfl
  | cons sec rest ih => intro sid pos; rw [mkSectionRows]; simp [ih]

theorem mem_delPageIds_of (db : Db) (slug : String) (p : PageRow)
    (hp : p ∈ db.pages) (hs : p.slug = slug) : p.id ∈ delPageIds db slug := by
  unfold delPageIds
  exact List.mem_map.mpr ⟨p, List.mem_filter.mpr ⟨hp, by simp [hs]⟩, rfl⟩

theorem mem_delSectionIds_of (db : Db) (slug : String) (s : SectionRow)
    (hs : s ∈ db.sections) (hmem : s.page_id ∈ delPageIds db slug) :
    s.id ∈ delSectionIds db slug := by
  unfold delSectionIds
  exact List.mem_map.mpr ⟨s, List.mem_filter.mpr ⟨hs, by simp [hmem]⟩, rfl⟩

theorem findPage_storePage (db : Db) (slug m sm u : String) (secs : List DocSection)
    (now : Int) :
    findPage (storePage db slug m sm u secs now) slug =
      some ⟨db.nextPageId, slug, m, sm, u, now⟩ := by
  have h1 : List.find? (fun p => p.slug == slug) ((deletePage db slug).pages) = none := by
    rw [List.find?_eq_none]
    intro x hx
    have hmem : x ∈ db.pages ∧ ¬x.slug = slug := by
      simpa [deletePage_pages, List.mem_filter] using hx
    simp [hmem.2]
  rw [findPage, storePage_pages, List.find?_append, h1]
  simp

/-- Memberships in the surviving pages after a delete. -/
theorem mem_deletePage_pages (db : Db) (slug : String) (p : PageRow) :
    p ∈ (deletePage db slug).pages ↔ p ∈ db.pages ∧ ¬p.slug = slug := by
  simp [deletePage_pages, List.mem_filter]

/-- Memberships in the surviving sections after a delete. -/
theorem mem_deletePage_sections (db : Db) (slug : String) (s : SectionRow) :
    s ∈ (deletePage db slug).sections ↔
      s ∈ db.sections ∧ s.page_id ∉ delPageIds db slug := by
  simp [deletePage_sections, List.mem_filter]

/-- Memberships in the surviving operations after a delete. -/
theorem mem_deletePage_operations (db : Db) (slug : String) (o : OperationRow) :
    o ∈ (deletePage db slug).operations ↔
      o ∈ db.operations ∧ o.page_id ∉ delPageIds db slug := by
  simp [deletePage_operations, List.mem_filter]

/-- Memberships in the surviving vectors after a delete. -/
theorem mem_deletePage_vectors (db : Db) (slug : String) (v : VecRow) :
    v ∈ (deletePage db slug).vectors ↔
      v ∈ db.vectors ∧ v.section_id ∉ delSectionIds db slug := by
  simp [deletePage_vectors, List.mem_filter]

/-! ## Preservation of well-formedness by `storePage` -/

theorem storePage_WF (db : Db) (hWF : Db.WF db) (slug m sm u : String)
    (secs : List DocSection) (now : Int) : Db.WF (storePage db slug m sm u secs now) := by
  obtain ⟨hpB, hsB, hsR, hoR, hvR⟩ := hWF
  refine ⟨?_, ?_, ?_, ?_, ?_⟩
  · intro p hp
    rw [storePage_pages] at hp
    rw [storePage_nextPageId]
    rcases List.mem_append.mp hp with h | h
    · have := hpB p ((mem_deletePage_pages db slug p).mp h).1
      omega
    · simp at h; subst h; simp
  · intro s hs
    rw [storePage_sections] at hs
    rw [storePage_nextSectionId]
    rcases List.mem_append.mp hs with h | h
    · have := hsB s ((mem_deletePage_sections db slug s).mp h).1
      omega
    · have := (mem_mkSectionRows db.nextPageId secs db.nextSectionId 0 s h).2.2
      omega
  · intro s hs
    rw [storePage_sections] at hs
    rcases List.mem_append.mp hs with h | h
    · obtain ⟨hsmem, hnotdel⟩ := (mem_deletePage_sections db slug s).mp h
      obtain ⟨p, hpmem, hpid⟩ := hsR s hsmem
      refine ⟨p, ?_, hpid⟩
      rw [storePage_pages]
      refine List.mem_append.mpr (Or.inl ((mem_deletePage_pages db slug p).mpr ⟨hpmem, ?_⟩))
      intro hslug
      exact hnotdel (hpid ▸ mem_delPageIds_of db slug p hpmem hslug)
    · obtain ⟨h1, _, _⟩ := mem_mkSectionRows db.nextPageId secs db.nextSectionId 0 s h
      refine ⟨⟨db.nextPageId, slug, m, sm, u, now⟩, ?_, h1⟩
      rw [storePage_pages]
      exact List.mem_append.mpr (Or.inr (by simp))
  · intro o ho
    rw [storePage_operations] at ho
    obtain ⟨homem, hnotdel⟩ := (mem_deletePage_operations db slug o).mp ho
    obtain ⟨p, hpmem, hpid⟩ := hoR o homem
    refine ⟨p, ?_, hpid⟩
    rw [storePage_pages]
    refine List.mem_append.mpr (Or.inl ((mem_deletePage_pages db slug p).mpr ⟨hpmem, ?_⟩))
    intro hslug
    exact hnotdel (hpid ▸ mem_delPageIds_of db slug p hpmem hslug)
  · intro v hv
    rw [storePage_vectors] at hv
    obtain ⟨hvmem, hnotdel⟩ := (mem_deletePage_vectors db slug v).mp hv
    obtain ⟨s, hsmem, hsid⟩ := hvR v hvmem
    refine ⟨s, ?_, hsid⟩
    rw [storePage_sections]
    refine List.mem_append.mpr (Or.inl ((mem_deletePage_sections db slug s).mpr ⟨hsmem, ?_⟩))
    intro hpagedel
    exact hnotdel (hsid ▸ mem_delSectionIds_of db slug s hsmem hpagedel)

/-! ## C7: empty operation lists -/

/-- C7: `storeOperations` with an empty list is a no-op on the store; yet
after the store effect of a forced submodule refresh whose new extraction
yields zero operations, the page holds zero operations, because the page
replacement already deleted the stale ones by cascade. -/
theorem storeOperations_empty_semantics (db : Db) (slug : String) :
    storeOperations db slug [] = db ∧
      (Db.WF db → ∀ moduleName submoduleName url sections now,
        getOperations
          (submodulePageStoreEffect db slug moduleName submoduleName url sections [] now)
          slug = []) := by
  constructor
  · simp [storeOperations]
  · intro hWF m sm u secs now
    have heff : submodulePageStoreEffect db slug m sm u secs [] now =
        storePage db slug m sm u secs now := by
      simp [submodulePageStoreEffect]
    rw [heff, getOperations, findPage_storePage]
    have hf : (storePage db slug m sm u secs now).operations.filter
        (fun o => o.page_id == db.nextPageId) = [] := by
      rw [List.filter_eq_nil_iff]
      intro o ho
      rw [storePage_operations] at ho
      have homem := ((mem_deletePage_operations db slug o).mp ho).1
      obtain ⟨p, hpmem, hpid⟩ := hWF.2.2.2.1 o homem
      have hlt := hWF.1 p hpmem
      simp only [beq_iff_eq]
      omega
    simp only [hf]
    rfl

/-- Witness for C7 at a page that previously stored three operations. -/
theorem storeOperations_empty_semantics_witness :
    storeOperations dbWithOps "p" [] = dbWithOps ∧
      getOperations (submodulePageStoreEffect dbWithOps "p" "M" "S" "u" [] [] 5) "p" = [] :=
  ⟨(storeOperations_empty_semantics dbWithOps "p").1,
    (storeOperations_empty_semantics dbWithOps "p").2 (by unfold Db.WF dbWithOps; decide)
      "M" "S" "u" [] 5⟩

/-! ## C6: re-indexing the same slug twice -/

/-- C6: two successive `storePage` calls with the same slug leave exactly
one page row for the slug; its section count is the section count of the
second call; and no section, operation or section vector referring to the
page row of the first call survives the cascading delete. -/
theorem storePage_twice_replaces (db db1 db2 : Db) (hWF : Db.WF db)
    (slug m1 sm1 u1 m2 sm2 u2 : String) (s1 s2 : List DocSection) (t1 t2 : Int)
    (hdb1 : db1 = storePage db slug m1 sm1 u1 s1 t1)
    (hdb2 : db2 = storePage db1 slug m2 sm2 u2 s2 t2) :
    ((db2.pages.filter (fun p => p.slug == slug)).length = 1) ∧
    (∀ p ∈ db2.pages, p.slug = slug →
      (db2.sections.filter (fun s => s.page_id == p.id)).length = s2.length) ∧
    (∀ p1 ∈ db1.pages, p1.slug = slug →
      (∀ s ∈ db2.sections, s.page_id ≠ p1.id) ∧
      (∀ o ∈ db2.operations, o.page_id ≠ p1.id) ∧
      (∀ v ∈ db2.vectors, ∀ srow ∈ db1.sections, srow.page_id = p1.id →
        v.section_id ≠ srow.id)) := by
  have hWF1 : Db.WF db1 := hdb1 ▸ storePage_WF db hWF slug m1 sm1 u1 s1 t1
  subst hdb2
  have hfilter : (storePage db1 slug m2 sm2 u2 s2 t2).pages.filter
      (fun p => p.slug == slug) = [⟨db1.nextPageId, slug, m2, sm2, u2, t2⟩] := by
    rw [storePage_pages, List.filter_append]
    have h1 : (deletePage db1 slug).pages.filter (fun p => p.slug == slug) = [] := by
      rw [List.filter_eq_nil_iff]
      intro p hp
      have := ((mem_deletePage_pages db1 slug p).mp hp).2
      simp [this]
    rw [h1]
    simp
  refine ⟨?_, ?_, ?_⟩
  · rw [hfilter]; rfl
  · intro p hp hslug
    have hpmem : p ∈ (storePage db1 slug m2 sm2 u2 s2 t2).pages.filter
        (fun p => p.slug == slug) := List.mem_filter.mpr ⟨hp, by simp [hslug]⟩
    rw [hfilter] at hpmem
    simp at hpmem
    subst hpmem
    rw [storePage_sections, List.filter_append]
    have hold : (deletePage db1 slug).sections.filter
        (fun s => s.page_id == db1.nextPageId) = [] := by
      rw [List.filter_eq_nil_iff]
      intro s hs
      have hsmem := ((mem_deletePage_sections db1 slug s).mp hs).1
      obtain ⟨q, hqmem, hqid⟩ := hWF1.2.2.1 s hsmem
      have hlt := hWF1.1 q hqmem
      simp only [beq_iff_eq]
      omega
    have hnew : (mkSectionRows db1.nextPageId db1.nextSectionId 0 s2).filter
        (fun s => s.page_id == db1.nextPageId) =
        mkSectionRows db1.nextPageId db1.nextSectionId 0 s2 := by
      rw [List.filter_eq_self]
      intro s hs
      have := (mem_mkSectionRows db1.nextPageId s2 db1.nextSectionId 0 s hs).1
      simp [this]
    rw [hold, hnew]
    simp [length_mkSectionRows]
  · intro p1 hp1 hslug1
    have hp1id : p1.id ∈ delPageIds db1 slug := mem_delPageIds_of db1 slug p1 hp1 hslug1
    have hp1lt : p1.id < db1.nextPageId := hWF1.1 p1 hp1
    refine ⟨?_, ?_, ?_⟩
    · intro s hs
      rw [storePage_sections] at hs
      rcases List.mem_append.mp hs with h | h
      · have := ((mem_deletePage_sections db1 slug s).mp h).2
        intro heq
        exact this (heq ▸ hp1id)
      · have := (mem_mkSectionRows db1.nextPageId s2 db1.nextSectionId 0 s h).1
        omega
    · intro o ho
      rw [storePage_operations] at ho
      have := ((mem_deletePage_operations db1 slug o).mp ho).2
      intro heq
      exact this (heq ▸ hp1id)
    · intro v hv srow hsrow hsrowpid
      rw [storePage_vectors] at hv
      have hnot := ((mem_deletePage_vectors db1 slug v).mp hv).2
      intro heq
      exact hnot (heq ▸ mem_delSectionIds_of db1 slug srow hsrow (hsrowpid ▸ hp1id))

/-- Witness for C6: re-index the slug `p` of a well-formed store twice. -/
theorem storePage_twice_replaces_witness :
    (((storePage (storePage dbWithOps "p" "M1" "S1" "u1" [⟨"t1", "c1"⟩, ⟨"t2", "c2"⟩] 1)
        "p" "M2" "S2" "u2" [⟨"t3", "c3"⟩] 2).pages.filter
          (fun p => p.slug == "p")).length = 1) ∧
    (∀ p ∈ (storePage (storePage dbWithOps "p" "M1" "S1" "u1" [⟨"t1", "c1"⟩, ⟨"t2", "c2"⟩] 1)
        "p" "M2" "S2" "u2" [⟨"t3", "c3"⟩] 2).pages, p.slug = "p" →
      ((storePage (storePage dbWithOps "p" "M1" "S1" "u1" [⟨"t1", "c1"⟩, ⟨"t2", "c2"⟩] 1)
        "p" "M2" "S2" "u2" [⟨"t3", "c3"⟩] 2).sections.filter
          (fun s => s.page_id == p.id)).length = 1) :=
  ⟨(storePage_twice_replaces dbWithOps _ _ (by unfold Db.WF dbWithOps; decide)
      "p" "M1" "S1" "u1" "M2" "S2" "u2" [⟨"t1", "c1"⟩, ⟨"t2", "c2"⟩] [⟨"t3", "c3"⟩] 1 2
      rfl rfl).1,
    (storePage_twice_replaces dbWithOps _ _ (by unfold Db.WF dbWithOps; decide)
      "p" "M1" "S1" "u1" "M2" "S2" "u2" [⟨"t1", "c1"⟩, ⟨"t2", "c2"⟩] [⟨"t3", "c3"⟩] 1 2
      rfl rfl).2.1⟩

/-! ## C8: section retrieval limits of the handler -/

/-- With a nonempty sanitized query, keyword search returns at most
`limit` rows: the FTS query is `LIMIT limit` (the oracle hypothesis) and
the zero-match fallback takes the first `limit` sections. -/
theorem searchSections_length_le (fts : FtsOracle) (db : Db) (slug q : String) (limit : Nat)
    (hFts : ∀ qq pid n, (fts qq pid n).length ≤ n)
    (hq : sanitizeQuery q ≠ "") :
    (searchSections fts db slug q limit).length ≤ limit := by
  rw [searchSections]
  cases hf : findPage db slug with
  | none => simp
  | some page =>
    simp only [hq, if_neg hq]
    by_cases hrows : fts (sanitizeQuery q) page.id limit = []
    · simp [hrows, List.length_take]
    · simp [hrows]
      exact hFts (sanitizeQuery q) page.id limit

/-- C8 counterexample: on a page with five stored sections, a supplied
query consisting only of punctuation (sanitizing to empty) makes the
handler return the full section set of five sections, not at most three. -/
theorem returnSections_fullSet_counterexample :
    (returnSections ftsEmpty dbFiveSections "p" (some "???") "Sub").sectionRows =
        getAllSections dbFiveSections "p" ∧
      ((returnSections ftsEmpty dbFiveSections "p" (some "???") "Sub").sectionRows).length = 5 := by
  constructor
  · decide
  · decide

/-- C8 (amended): when the supplied query has a nonempty sanitized form
the response contains at most `QUERY_SECTION_LIMIT = 3` sections chosen by
keyword search; a query that sanitizes to empty falls into the
all-sections path, so the response then carries the whole section list;
without a (truthy) query the handler takes the first
`DEFAULT_SECTION_LIMIT = 4` sections by position; and an empty retrieval
yields the user-facing error recommending a forced re-index, never an
empty success. -/
theorem returnSections_limits (fts : FtsOracle) (db : Db) (slug name : String)
    (query : Option String)
    (hFts : ∀ qq pid n, (fts qq pid n).length ≤ n) :
    (∀ q, query = some q → q ≠ "" → sanitizeQuery q ≠ "" →
      ((returnSections fts db slug query name).sectionRows).length ≤ QUERY_SECTION_LIMIT) ∧
    (∀ q, query = some q → q ≠ "" → sanitizeQuery q = "" →
      (returnSections fts db slug query name).sectionRows = getAllSections db slug) ∧
    ((query = none ∨ query = some "") →
      retrieveForReturn fts db slug query =
        (getAllSections db slug).take DEFAULT_SECTION_LIMIT) ∧
    (retrieveForReturn fts db slug query = [] →
      returnSections fts db slug query name = ToolResult.err (noContentMsg name)) := by
  refine ⟨?_, ?_, ?_, ?_⟩
  · intro q hq hne hsan
    subst hq
    have hlen : (retrieveForReturn fts db slug (some q)).length ≤ QUERY_SECTION_LIMIT := by
      rw [retrieveForReturn]
      simp only [hne, if_pos hne]
      exact searchSections_length_le fts db slug q QUERY_SECTION_LIMIT hFts hsan
    rw [returnSections]
    by_cases hz : (retrieveForReturn fts db slug (some q)).length = 0
    · simp [hz, ToolResult.sectionRows]
    · simp only [hz, if_neg hz, ToolResult.sectionRows]
      exact hlen
  · intro q hq hne hsan
    subst hq
    have hretr : retrieveForReturn fts db slug (some q) = getAllSections db slug := by
      rw [retrieveForReturn]
      simp only [hne, if_pos hne]
      rw [searchSections]
      cases hf : findPage db slug with
      | none =>
        rw [getAllSections, hf]
      | some page => simp [hsan]
    rw [returnSections, hretr]
    by_cases hz : (getAllSections db slug).length = 0
    · have : getAllSections db slug = [] := List.eq_nil_of_length_eq_zero hz
      simp [hz, ToolResult.sectionRows, this]
    · simp [hz, ToolResult.sectionRows]
  · intro hq
    rcases hq with h | h <;> subst h <;> simp [retrieveForReturn]
  · intro hempty
    rw [returnSections, hempty]
    rfl

/-- Witness for C8: a nonempty sanitized query on the five-section page is
capped at three sections, and an absent query takes the first four. -/
theorem returnSections_limits_witness :
    ((returnSections ftsEmpty dbFiveSections "p" (some "factura") "Sub").sectionRows).length ≤
        QUERY_SECTION_LIMIT ∧
      retrieveForReturn ftsEmpty dbFiveSections "p" none =
        (getAllSections dbFiveSections "p").take DEFAULT_SECTION_LIMIT :=
  ⟨(returnSections_limits ftsEmpty dbFiveSections "p" "Sub" (some "factura")
      (fun _ _ n => Nat.zero_le n)).1 "factura" rfl (by decide) (by decide),
    (returnSections_limits ftsEmpty dbFiveSections "p" "Sub" none
      (fun _ _ n => Nat.zero_le n)).2.2.1 (Or.inl rfl)⟩

/-! ## C5: Reciprocal Rank Fusion ranks a shared first candidate first -/

theorem rrfContribAux_of_not_mem (k : ℚ) (id : Nat) :
    ∀ (l : List Nat) (r : Nat), id ∉ l → rrfContribAux k id l r = 0 := by
  intro l
  induction l with
  | nil => intro r _; rfl
  | cons a t ih =>
    intro r hmem
    rw [rrfContribAux]
    have ha : a ≠ id := fun h => hmem (h ▸ List.mem_cons_self a t)
    rw [if_neg ha, ih (r + 1) (fun h => hmem (List.mem_cons_of_mem a h))]
    ring

theorem rrfContribAux_head (k : ℚ) (x : Nat) (l : List Nat)
    (hn : l.Nodup) (hh : l.head? = some x) :
    rrfContribAux k x l 0 = 1 / (k + 1) := by
  cases l with
  | nil => simp at hh
  | cons a t =>
    have ha : a = x := by simpa using hh
    subst ha
    have hnot : a ∉ t := (List.nodup_cons.mp hn).1
    rw [rrfContribAux, if_pos rfl, rrfContribAux_of_not_mem k a t 1 hnot]
    push_cast
    ring

theorem rrfContribAux_le (k : ℚ) (hk : 0 < k) (y : Nat) :
    ∀ (l : List Nat), l.Nodup → ∀ (r : Nat), rrfContribAux k y l r ≤ 1 / (k + r + 1) := by
  intro l
  induction l with
  | nil =>
    intro _ r
    rw [rrfContribAux]
    positivity
  | cons a t ih =>
    intro hn r
    obtain ⟨hnot, hnt⟩ := List.nodup_cons.mp hn
    rw [rrfContribAux]
    by_cases ha : a = y
    · subst ha
      rw [if_pos rfl, rrfContribAux_of_not_mem k a t (r + 1) hnot, add_zero]
    · rw [if_neg ha]
      have h1 := ih hnt (r + 1)
      push_cast at h1
      have h2 : (1 : ℚ) / (k + (↑r + 1) + 1) ≤ 1 / (k + ↑r + 1) := by
        apply one_div_le_one_div_of_le
        · positivity
        · linarith
      linarith

theorem rrfContribAux_tail_le (k : ℚ) (hk : 0 < k) (x y : Nat) (l : List Nat)
    (hn : l.Nodup) (hh : l.head? = some x) (hy : y ≠ x) :
    rrfContribAux k y l 0 ≤ 1 / (k + 2) := by
  cases l with
  | nil => simp at hh
  | cons a t =>
    have ha : a = x := by simpa using hh
    subst ha
    have hnt := (List.nodup_cons.mp hn).2
    rw [rrfContribAux, if_neg (fun h => hy h.symm)]
    have hle := rrfContribAux_le k hk y t hnt 1
    push_cast at hle
    rw [show k + (1 : ℚ) + 1 = k + 2 from by ring] at hle
    push_cast
    linarith

theorem rrfKeys_mem_aux (x : Nat) :
    ∀ (l acc : List Nat),
      x ∈ l.foldl (fun acc id => if id ∈ acc then acc else acc ++ [id]) acc ↔
        x ∈ acc ∨ x ∈ l := by
  intro l
  induction l with
  | nil => intro acc; simp
  | cons a t ih =>
    intro acc
    rw [List.foldl_cons]
    by_cases ha : a ∈ acc
    · rw [if_pos ha, ih acc]
      constructor
      · rintro (h | h)
        · exact Or.inl h
        · exact Or.inr (List.mem_cons_of_mem a h)
      · rintro (h | h)
        · exact Or.inl h
        · rcases List.mem_cons.mp h with h | h
          · exact Or.inl (h ▸ ha)
          · exact Or.inr h
    · rw [if_neg ha, ih (acc ++ [a])]
      simp only [List.mem_append, List.mem_singleton, List.mem_cons]
      tauto

theorem mem_rrfKeys (x : Nat) (l1 l2 : List Nat) :
    x ∈ rrfKeys l1 l2 ↔ x ∈ l1 ∨ x ∈ l2 := by
  rw [rrfKeys, rrfKeys_mem_aux]
  simp

/-- C5: when both candidate lists place the same section id at rank 0, its
fused RRF score strictly exceeds that of every other id for every positive
constant, so that id is in the fused top-`limit` selection for every
`limit ≥ 1`. -/
theorem rrf_sharedFirst_ranksFirst (k : ℚ) (hk : 0 < k) (l1 l2 : List Nat) (x : Nat)
    (h1 : l1.head? = some x) (h2 : l2.head? = some x)
    (hn1 : l1.Nodup) (hn2 : l2.Nodup) :
    (∀ y, y ≠ x → rrfScore k l1 l2 y < rrfScore k l1 l2 x) ∧
    (∀ limit, 1 ≤ limit → x ∈ rrfTopIds k l1 l2 limit) := by
  have hscore : ∀ y, y ≠ x → rrfScore k l1 l2 y < rrfScore k l1 l2 x := by
    intro y hy
    rw [rrfScore, rrfScore, rrfContribAux_head k x l1 hn1 h1,
      rrfContribAux_head k x l2 hn2 h2]
    have ha := rrfContribAux_tail_le k hk x y l1 hn1 h1 hy
    have hb := rrfContribAux_tail_le k hk x y l2 hn2 h2 hy
    have hlt : (1 : ℚ) / (k + 2) < 1 / (k + 1) := by
      apply one_div_lt_one_div_of_lt
      · positivity
      · linarith
    linarith
  refine ⟨hscore, ?_⟩
  intro limit hlim
  haveI instTot : IsTotal Nat (fun a b => rrfScore k l1 l2 b ≤ rrfScore k l1 l2 a) :=
    ⟨fun a b => le_total _ _⟩
  haveI instTrans : IsTrans Nat (fun a b => rrfScore k l1 l2 b ≤ rrfScore k l1 l2 a) :=
    ⟨fun _ _ _ hab hbc => le_trans hbc hab⟩
  have hxl1 : x ∈ l1 := by
    cases l1 with
    | nil => simp at h1
    | cons a t => simp at h1; exact h1 ▸ List.mem_cons_self a t
  have hxkeys : x ∈ rrfKeys l1 l2 := (mem_rrfKeys x l1 l2).mpr (Or.inl hxl1)
  have hxsorted : x ∈ rrfSorted k l1 l2 :=
    (List.perm_insertionSort _ (rrfKeys l1 l2)).mem_iff.mpr hxkeys
  have hpair : List.Pairwise (fun a b => rrfScore k l1 l2 b ≤ rrfScore k l1 l2 a)
      (rrfSorted k l1 l2) :=
    List.sorted_insertionSort _ (rrfKeys l1 l2)
  rw [rrfTopIds]
  cases hs : rrfSorted k l1 l2 with
  | nil => rw [hs] at hxsorted; simp at hxsorted
  | cons h t =>
    rw [hs] at hxsorted hpair
    by_cases hx : h = x
    · subst hx
      cases limit with
      | zero => omega
      | succ m => simp [List.take_succ_cons]
    · exfalso
      have hxt : x ∈ t := by
        rcases List.mem_cons.mp hxsorted with h' | h'
        · exact absurd h'.symm hx
        · exact h'
      have hle : rrfScore k l1 l2 x ≤ rrfScore k l1 l2 h :=
        (List.pairwise_cons.mp hpair).1 x hxt
      have hlt := hscore h hx
      linarith

/-- Witness for C5: both lists rank section 7 first. -/
theorem rrf_sharedFirst_ranksFirst_witness :
    rrfScore 60 [7, 2] [7, 9] 2 < rrfScore 60 [7, 2] [7, 9] 7 ∧
      7 ∈ rrfTopIds 60 [7, 2] [7, 9] 3 :=
  ⟨(rrf_sharedFirst_ranksFirst 60 (by decide) [7, 2] [7, 9] 7 rfl rfl
      (by decide) (by decide)).1 2 (by decide),
    (rrf_sharedFirst_ranksFirst 60 (by decide) [7, 2] [7, 9] 7 rfl rfl
      (by decide) (by decide)).2 3 (by decide)⟩

/-! ## C2: section sizes produced by the chunker -/

theorem hasNN_append_single (c : Char) :
    ∀ (l : List Char),
      hasNN (l ++ [c]) = true ↔
        (hasNN l = true ∨ (l.getLast? = some '\n' ∧ c = '\n')) := by
  intro l
  induction l with
  | nil => simp [hasNN]
  | cons a t ih =>
    cases t with
    | nil =>
      simp [hasNN]
    | cons b t2 =>
      have hstep : hasNN ((a :: b :: t2) ++ [c]) =
          ((a = '\n' && b = '\n') || hasNN ((b :: t2) ++ [c])) := by
        simp [hasNN]
      have hstep2 : hasNN (a :: b :: t2) = ((a = '\n' && b = '\n') || hasNN (b :: t2)) := by
        simp [hasNN]
      rw [List.cons_append] at hstep ⊢
      rw [hstep, hstep2]
      simp only [Bool.or_eq_true, Bool.and_eq_true, decide_eq_true_eq]
      rw [ih]
      have hlast : (b :: t2).getLast? = (a :: b :: t2).getLast? := by
        simp [List.getLast?_cons_cons]
      rw [hlast]
      tauto

theorem spGo_pieces_no_boundary :
    ∀ (cs : List Char) (skip : Bool) (acc : List Char),
      hasNN acc.reverse = false →
      (acc.head? = some '\n' → cs.head? ≠ some '\n') →
      ∀ p ∈ spGo skip cs acc, hasNN p = false := by
  intro cs
  induction cs with
  | nil =>
    intro skip acc hacc _ p hp
    cases skip with
    | false => rw [spGo] at hp; simp at hp; exact hp ▸ hacc
    | true => rw [spGo] at hp; simp at hp; simp [hp, hasNN]
  | cons c rest ih =>
    intro skip acc hacc hinv p hp
    cases skip with
    | true =>
      rw [spGo] at hp
      by_cases hc : c = '\n'
      · rw [if_pos (by simp [hc])] at hp
        exact ih true [] (by simp [hasNN]) (by simp) p hp
      · rw [if_neg (by simp [hc])] at hp
        exact ih false [c] (by simp [hasNN]) (by simp [hc]) p hp
    | false =>
      rw [spGo] at hp
      by_cases hcond : c = '\n' ∧ rest.head? = some '\n'
      · rw [if_pos (by simp [hcond.1, hcond.2])] at hp
        rcases List.mem_cons.mp hp with h | h
        · exact h ▸ hacc
        · exact ih true [] (by simp [hasNN]) (by simp) p h
      · rw [if_neg (by simpa using hcond)] at hp
        refine ih false (c :: acc) ?_ ?_ p hp
        · rw [List.reverse_cons]
          rw [Bool.eq_false_iff]
          intro hbad
          rcases (hasNN_append_single c acc.reverse).mp hbad with h | h
          · rw [hacc] at h
            exact Bool.false_ne_true h
          · obtain ⟨hl, hc⟩ := h
            rw [List.getLast?_reverse] at hl
            exact hinv hl (by simp [hc])
        · intro hhead
          simp at hhead
          intro hresthead
          exact hcond ⟨hhead, hresthead⟩

theorem splitParas_pieces_no_boundary (cs : List Char) :
    ∀ p ∈ splitParas cs, hasNN p = false := by
  intro p hp
  exact spGo_pieces_no_boundary cs false [] (by simp [hasNN]) (by simp) p hp

/-- The goodness predicate of the amended C2: a chunk either fits the
budget or is an unsplittable single paragraph. -/
def goodChunk (c : DocSection) : Prop :=
  c.content.length ≤ MAX_SECTION_CHARS ∨ hasBlankBoundary c.content = false

/-- The buffer invariant of the greedy packing loop. -/
def goodBuffer (buffer : List String) : Prop :=
  buffer = [] ∨ (joinWith "\n\n" buffer).length ≤ MAX_SECTION_CHARS ∨
    ∃ p, buffer = [p] ∧ hasNN p.data = false

theorem packLoop_good (title : String) :
    ∀ (paras : List String) (partIndex : Nat) (buffer : List String),
      (∀ p ∈ paras, hasNN p.data = false) →
      goodBuffer buffer →
      ∀ c ∈ packLoop title partIndex buffer paras, goodChunk c := by
  intro paras
  induction paras with
  | nil =>
    intro partIndex buffer _ hbuf c hc
    rw [packLoop] at hc
    by_cases hb : buffer = []
    · rw [if_neg (by simp [hb])] at hc
      simp at hc
    · rw [if_pos (by simp [hb])] at hc
      simp at hc
      subst hc
      rcases hbuf with h | h | ⟨p, hp, hpn⟩
      · exact absurd h hb
      · exact Or.inl h
      · refine Or.inr ?_
        rw [hp]
        simpa [mkChunk, hasBlankBoundary, joinWith] using hpn
  | cons para rest ih =>
    intro partIndex buffer hparas hbuf c hc
    have hpara : hasNN para.data = false := hparas para (List.mem_cons_self para rest)
    have hrest : ∀ p ∈ rest, hasNN p.data = false :=
      fun p hp => hparas p (List.mem_cons_of_mem para hp)
    rw [packLoop] at hc
    by_cases hcond : MAX_SECTION_CHARS < (joinWith "\n\n" (buffer ++ [para])).length ∧
        buffer ≠ []
    · rw [if_pos (by simp [hcond.1, hcond.2])] at hc
      rcases List.mem_cons.mp hc with h | h
      · subst h
        rcases hbuf with hb | hb | ⟨p, hp, hpn⟩
        · exact absurd hb hcond.2
        · exact Or.inl hb
        · refine Or.inr ?_
          rw [hp]
          simpa [mkChunk, hasBlankBoundary, joinWith] using hpn
      · exact ih (partIndex + 1) [para] hrest (Or.inr (Or.inr ⟨para, rfl, hpara⟩)) c h
    · rw [if_neg (by simpa using hcond)] at hc
      refine ih partIndex (buffer ++ [para]) hrest ?_ c hc
      by_cases hlen : (joinWith "\n\n" (buffer ++ [para])).length ≤ MAX_SECTION_CHARS
      · exact Or.inr (Or.inl hlen)
      · have hb : buffer = [] := by
          by_contra hb
          exact hcond ⟨by omega, hb⟩
        subst hb
        exact Or.inr (Or.inr ⟨para, rfl, hpara⟩)

theorem splitLongSection_good (sec : DocSection) :
    ∀ c ∈ splitLongSection sec, goodChunk c := by
  intro c hc
  rw [splitLongSection] at hc
  by_cases hlen : sec.content.length ≤ MAX_SECTION_CHARS
  · rw [if_pos hlen] at hc
    simp at hc
    exact hc ▸ Or.inl hlen
  · rw [if_neg hlen] at hc
    refine packLoop_good sec.title _ 1 [] ?_ (Or.inl rfl) c hc
    intro p hp
    rcases List.mem_map.mp hp with ⟨piece, hpiece, hmk⟩
    have := splitParas_pieces_no_boundary sec.content.data piece hpiece
    rw [← hmk]
    exact this

/-- C2 counterexample: a markdown document that is one single paragraph of
2501 identical characters (no headings, no blank lines) chunks into one
section of 2501 characters, exceeding the 2500-character limit. -/
def bigMarkdown : String :=
  String.mk (List.replicate 2501 'a')

theorem linesOfAux_no_newline :
    ∀ (cs acc : List Char), (∀ c ∈ cs, c ≠ '\n') →
      linesOfAux cs acc = [String.mk (acc.reverse ++ cs)] := by
  intro cs
  induction cs with
  | nil => intro acc _; simp [linesOfAux]
  | cons c rest ih =>
    intro acc hno
    rw [linesOfAux, if_neg (hno c (List.mem_cons_self c rest))]
    rw [ih (c :: acc) (fun d hd => hno d (List.mem_cons_of_mem c hd))]
    simp

theorem dropWhile_eq_self_of_none (p : Char → Bool) :
    ∀ (cs : List Char), (∀ c ∈ cs, p c = false) → cs.dropWhile p = cs := by
  intro cs h
  cases cs with
  | nil => rfl
  | cons c rest =>
    rw [List.dropWhile_cons, h c (List.mem_cons_self c rest)]
    simp

theorem trimChars_of_no_ws (cs : List Char) (h : ∀ c ∈ cs, c.isWhitespace = false) :
    trimChars cs = cs := by
  rw [trimChars, dropWhile_eq_self_of_none _ cs h,
    dropWhile_eq_self_of_none _ cs.reverse (fun c hc => h c (List.mem_reverse.mp hc)),
    List.reverse_reverse]

theorem spGo_no_newline :
    ∀ (cs acc : List Char), (∀ c ∈ cs, c ≠ '\n') →
      spGo false cs acc = [acc.reverse ++ cs] := by
  intro cs
  induction cs with
  | nil => intro acc _; simp [spGo]
  | cons c rest ih =>
    intro acc hno
    rw [spGo, if_neg (by simp [hno c (List.mem_cons_self c rest)])]
    rw [ih (c :: acc) (fun d hd => hno d (List.mem_cons_of_mem c hd))]
    simp

theorem replicate_a_no_newline (n : Nat) : ∀ c ∈ List.replicate n 'a', c ≠ '\n' := by
  intro c hc
  rw [List.eq_of_mem_replicate hc]
  decide

theorem replicate_a_no_ws (n : Nat) : ∀ c ∈ List.replicate n 'a', c.isWhitespace = false := by
  intro c hc
  rw [List.eq_of_mem_replicate hc]
  decide

theorem strTrim_bigMarkdown : strTrim bigMarkdown = bigMarkdown := by
  rw [bigMarkdown, strTrim]
  simp only [String.data]
  rw [trimChars_of_no_ws _ (replicate_a_no_ws 2501)]

theorem splitIntoSections_counterexample :
    (splitIntoSections bigMarkdown "T").map (fun c => c.content.length) = [2501] := by
  have hlines : linesOf bigMarkdown = [bigMarkdown] := by
    rw [linesOf, bigMarkdown]
    simp only [String.data]
    rw [linesOfAux_no_newline _ [] (replicate_a_no_newline 2501)]
    simp
  have hhead : matchHeadingTitle bigMarkdown = none := by
    rw [bigMarkdown, matchHeadingTitle]
    simp [List.replicate_succ]
  have hjoin : joinWith "\n" [bigMarkdown] = bigMarkdown := rfl
  have hlen : bigMarkdown.length = 2501 := by
    rw [bigMarkdown]
    simp [String.length]
  have hraw : buildRawSections [bigMarkdown] "T" [] [] = [⟨"T", bigMarkdown⟩] := by
    simp only [buildRawSections, hhead, List.nil_append, hjoin, strTrim_bigMarkdown]
    rw [if_pos (by rw [hlen]; decide)]
  rw [splitIntoSections]
  simp only [hlines, hraw]
  rw [if_neg (by simp)]
  have hparas : splitParas bigMarkdown.data = [bigMarkdown.data] := by
    rw [splitParas, spGo_no_newline _ [] (by rw [bigMarkdown]; exact replicate_a_no_newline 2501)]
    simp
  have hsplit : splitLongSection ⟨"T", bigMarkdown⟩ = [⟨"T", bigMarkdown⟩] := by
    rw [splitLongSection]
    rw [if_neg (by simp only [hlen]; decide)]
    simp only [hparas]
    rw [show (([bigMarkdown.data].map (fun cs => String.mk cs)) : List String) =
      [bigMarkdown] from rfl]
    rw [packLoop]
    rw [if_neg (by simp)]
    rw [packLoop]
    rw [if_pos (by simp)]
    rfl
  simp only [List.flatMap_cons, List.flatMap_nil, hsplit]
  simp [hlen]

/-- C2 (amended): every section produced by `splitIntoSections` either has
content of at most 2,500 characters or contains no blank-line paragraph
boundary at all (a single unsplittable paragraph, which the re-split
cannot shorten); oversized sections with boundaries are re-split by the
greedy paragraph packing. -/
theorem splitIntoSections_size_bound (markdown pageTitle : String) :
    ∀ c ∈ splitIntoSections markdown pageTitle,
      c.content.length ≤ MAX_SECTION_CHARS ∨ hasBlankBoundary c.content = false := by
  intro c hc
  rw [splitIntoSections] at hc
  by_cases hcond : (buildRawSections (linesOf markdown) pageTitle [] []).length = 0 ∧
      0 < (strTrim markdown).length
  · rw [if_pos (by simp [hcond.1, hcond.2])] at hc
    exact splitLongSection_good _ c hc
  · rw [if_neg (by simpa using hcond)] at hc
    rcases List.mem_flatMap.mp hc with ⟨sec, _, hmem⟩
    exact splitLongSection_good sec c hmem

/-- Witness for C2 on a small single-paragraph document. -/
theorem splitIntoSections_size_bound_witness :
    (⟨"T", "una seccion de prueba con texto suficiente para pasar el umbral de los ochenta caracteres"⟩ : DocSection) ∈
        splitIntoSections
          "una seccion de prueba con texto suficiente para pasar el umbral de los ochenta caracteres" "T" ∧
      ((⟨"T", "una seccion de prueba con texto suficiente para pasar el umbral de los ochenta caracteres"⟩ : DocSection).content.length ≤ MAX_SECTION_CHARS ∨
        hasBlankBoundary (⟨"T", "una seccion de prueba con texto suficiente para pasar el umbral de los ochenta caracteres"⟩ : DocSection).content = false) :=
  ⟨by decide,
    splitIntoSections_size_bound
      "una seccion de prueba con texto suficiente para pasar el umbral de los ochenta caracteres" "T"
      ⟨"T", "una seccion de prueba con texto suficiente para pasar el umbral de los ochenta caracteres"⟩
      (by decide)⟩

/-! ## C3: minimum-content thresholds of the embedded-JSON extractors -/

theorem guard_some (n : Nat) (s r : String)
    (h : (if n < s.length then some s else none) = some r) : n < r.length ∧ r = s := by
  by_cases hc : n < s.length
  · rw [if_pos hc] at h
    cases h
    exact ⟨hc, rfl⟩
  · rw [if_neg hc] at h
    cases h

theorem ssrEarlyResult_length (doc : Js) (pageUrl : String) (r : String)
    (h : ssrEarlyResult doc pageUrl = some r) : 100 < r.length := by
  rw [ssrEarlyResult] at h
  exact (guard_some 100 _ r h).1

theorem ssrMainResult_length (jS : Js → String) (doc a : Js) (pageUrl : String) (r : String)
    (h : ssrMainResult jS doc a pageUrl = some r) : 150 < r.length := by
  rw [ssrMainResult] at h
  exact (guard_some 150 _ r h).1

theorem extractContentFromSsrDoc_noApi_length (jS : Js → String) (doc : Js)
    (pageUrl : String) (r : String) (hok : ssrApiOk doc = false)
    (h : extractContentFromSsrDoc jS doc pageUrl = some r) : 100 < r.length := by
  cases hapi : doc.getField "api" with
  | none =>
    rw [extractContentFromSsrDoc, hapi, ssrApiDispatch] at h
    exact ssrEarlyResult_length doc pageUrl r h
  | some a =>
    simp only [ssrApiOk, hapi] at hok
    rw [extractContentFromSsrDoc, hapi, ssrApiDispatch, if_neg (by simp [hok])] at h
    exact ssrEarlyResult_length doc pageUrl r h

theorem extractContentFromSsrDoc_api_length (jS : Js → String) (doc : Js)
    (pageUrl : String) (r : String) (hok : ssrApiOk doc = true)
    (h : extractContentFromSsrDoc jS doc pageUrl = some r) : 150 < r.length := by
  cases hapi : doc.getField "api" with
  | none => simp only [ssrApiOk, hapi] at hok; cases hok
  | some a =>
    simp only [ssrApiOk, hapi] at hok
    rw [extractContentFromSsrDoc, hapi, ssrApiDispatch, if_pos hok] at h
    exact ssrMainResult_length jS doc a pageUrl r h

theorem nextDataDocResult_length (hR : String → String) (jS : Js → String) (dataJs : Js)
    (pageUrl : String) (r : String)
    (h : nextDataDocResult hR jS dataJs pageUrl = some r) : 150 < r.length := by
  rw [nextDataDocResult] at h
  cases hd : nextDataDoc dataJs with
  | none => rw [hd, nextDataFromDoc] at h; cases h
  | some d =>
    rw [hd, nextDataFromDoc] at h
    by_cases hobj : (d.truthy && d.isObjectType) = true
    · rw [if_pos hobj] at h
      exact (guard_some 150 _ r h).1
    · rw [if_neg hobj] at h
      cases h

/-- C3 (amended): a `__NEXT_DATA__`-shape result and an ssr-props result
for a document with an `api` object are rejected (null, falling through to
HTML parsing) below the 150-character threshold; but the ssr-props shape
for a document without an `api` object uses a 100-character threshold, so
an embedded-JSON result of 101 to 150 characters can be returned as valid
content through that path, and `extractEndpointContent` then uses it
instead of falling through. -/
theorem extraction_thresholds (hR : String → String) (jS : Js → String)
    (doc : Js) (data : Option Js) (pageUrl : String)
    (parse : String → Option Js) (htmlX : String → String → String) (html : String) :
    (∀ r, ssrApiOk doc = false → extractContentFromSsrDoc jS doc pageUrl = some r →
      100 < r.length) ∧
    (∀ r, ssrApiOk doc = true → extractContentFromSsrDoc jS doc pageUrl = some r →
      150 < r.length) ∧
    (∀ r, extractContentFromNextData hR jS data pageUrl = some r →
      100 < r.length ∧
        (r.length ≤ 150 →
          ∃ dj sd, data = some dj ∧ dj.getField "document" = some sd ∧
            (sd.truthy && sd.isObjectType) = true ∧ ssrApiOk sd = false ∧
            extractContentFromSsrDoc jS sd pageUrl = some r)) ∧
    (extractContentFromNextData hR jS (parse html) pageUrl = none →
      extractEndpointContent parse hR jS htmlX html pageUrl = htmlX html pageUrl) ∧
    (∀ r, extractContentFromNextData hR jS (parse html) pageUrl = some r →
      extractEndpointContent parse hR jS htmlX html pageUrl = r) := by
  refine ⟨?_, ?_, ?_, ?_, ?_⟩
  · exact fun r => extractContentFromSsrDoc_noApi_length jS doc pageUrl r
  · exact fun r => extractContentFromSsrDoc_api_length jS doc pageUrl r
  · intro r h
    cases data with
    | none => rw [extractContentFromNextData] at h; cases h
    | some dj =>
      rw [extractContentFromNextData] at h
      by_cases htr : dj.truthy = true
      · rw [if_pos htr] at h
        cases hssr : ssrBranchResult jS dj pageUrl with
        | some r0 =>
          rw [hssr] at h
          cases h
          rw [ssrBranchResult] at hssr
          cases hdoc : dj.getField "document" with
          | none => rw [hdoc, ssrFromDocField] at hssr; cases hssr
          | some sd =>
            rw [hdoc, ssrFromDocField] at hssr
            by_cases hobj : (sd.truthy && sd.isObjectType) = true
            · rw [if_pos hobj] at hssr
              cases hok : ssrApiOk sd with
              | false =>
                refine ⟨extractContentFromSsrDoc_noApi_length jS sd pageUrl r hok hssr, ?_⟩
                intro _
                exact ⟨dj, sd, rfl, hdoc, hobj, hok, hssr⟩
              | true =>
                have := extractContentFromSsrDoc_api_length jS sd pageUrl r hok hssr
                exact ⟨by omega, fun hle => absurd hle (by omega)⟩
            · rw [if_neg hobj] at hssr
              cases hssr
        | none =>
          rw [hssr] at h
          have := nextDataDocResult_length hR jS dj pageUrl r h
          exact ⟨by omega, fun hle => absurd hle (by omega)⟩
      · rw [if_neg htr] at h
        cases h
  · intro hnone
    rw [extractEndpointContent, hnone]
  · intro r hsome
    rw [extractEndpointContent, hsome]

/-- A 60-character title whose ssr-doc extraction lands between the two
thresholds. -/
def demoTitle : String := "AAAAAAAAAAAAAAAAAAAAAAAAAAAAAAAAAAAAAAAAAAAAAAAAAAAAAAAAAAAA"

/-- A 42-character page URL. -/
def demoUrl : String := "https://developer.alegra.com/reference/abc"

/-- An ssr-props document with a title and no `api` member. -/
def demoSsrDoc : Js := Js.obj [("title", Js.str demoTitle)]

/-- A parsed ssr-props payload wrapping `demoSsrDoc`. -/
def demoSsrData : Js := Js.obj [("document", demoSsrDoc)]

/-- The 123-character extraction result of `demoSsrDoc`. -/
def demoResult : String := "# Documentación: " ++ demoUrl ++ "\n\n# " ++ demoTitle

/-- C3 counterexample: the embedded-JSON extraction of an ssr-props page
whose document has no `api` member returns a 123-character result as valid
content (123 is under the 150-character threshold), and
`extractEndpointContent` serves it instead of falling through to the HTML
strategy. -/
theorem extraction_under_threshold_counterexample :
    extractContentFromNextData (fun s => s) (fun _ => "") (some demoSsrData) demoUrl =
        some demoResult ∧
      demoResult.length = 123 ∧
      extractEndpointContent (fun _ => some demoSsrData) (fun s => s) (fun _ => "")
        (fun _ _ => "HTML-FALLBACK") "unused html" demoUrl = demoResult := by
  refine ⟨by decide, by decide, by decide⟩

/-- Witness for C3 at the demo document (no-api path) and at a document
with an `api` object. -/
theorem extraction_thresholds_witness :
    100 < demoResult.length ∧
      extractEndpointContent (fun _ => some demoSsrData) (fun s => s) (fun _ => "")
        (fun _ _ => "HTML-FALLBACK") "unused html" demoUrl = demoResult :=
  ⟨(extraction_thresholds (fun s => s) (fun _ => "") demoSsrDoc (some demoSsrData) demoUrl
      (fun _ => some demoSsrData) (fun _ _ => "HTML-FALLBACK") "unused html").1 demoResult
      (by decide) (by decide),
    (extraction_thresholds (fun s => s) (fun _ => "") demoSsrDoc (some demoSsrData) demoUrl
      (fun _ => some demoSsrData) (fun _ _ => "HTML-FALLBACK") "unused html").2.2.2.2 demoResult
      (by decide)⟩
